import Mathlib

/-!
Verification of the `mm.c` segregated-free-list memory allocator.

The heap is modelled as a word-granular byte-addressed memory
(`St.mem a` is the 32-bit word stored at byte address `a`; the
allocator only ever accesses 4-aligned addresses).  Addresses and
sizes are 64-bit (`size_t`); the two places where 64-bit wraparound
is observable in the source — the `ALIGN` computation in `malloc`
and the `HDRP` pointer arithmetic — are modelled with an explicit
`% 2^64`.  Word reads and writes are bounds-checked against the
current heap `[8, brk)`; an out-of-range access yields the error
`AErr.oob`, matching the fact that such an access in the C source
leaves the language semantics.  The unbounded list-scanning loops
of the source are given explicit fuel; exhausting the fuel yields
`AErr.fuel`.

The heap-growth provider (`mem_sbrk` of `memlib`) is not part of the
repository's source; it is modelled from the spec.
-/

set_option maxRecDepth 2000

namespace MM

/-- `WSIZE` from mm.c: word and header/footer size in bytes. -/
def WSIZE : Nat := 4

/-- `DSIZE` from mm.c: double word size in bytes. -/
def DSIZE : Nat := 8

/-- `NUMLIST` from mm.c: number of segregated lists. -/
def NUMLIST : Nat := 25

/-- `MINSIZE` from mm.c: minimum size of a block in bytes. -/
def MINSIZE : Nat := 16

/-- `CHUNKSIZE` from mm.c: default heap-extension amount in bytes. -/
def CHUNKSIZE : Nat := 256

/-- `2^32`, the modulus of the 32-bit header/footer words. -/
def U32 : Nat := 4294967296

/-- `2^64`, the modulus of `size_t` and of pointer arithmetic. -/
def U64 : Nat := 18446744073709551616

/-- Errors of the embedded semantics: an out-of-heap memory access
(undefined behaviour in the C source), or fuel exhaustion of a
scanning loop. -/
inductive AErr
  | oob
  | fuel
deriving DecidableEq, Repr

/-- The allocator state: the word-granular heap memory, the two
globals `heap_listp` and `freelists` of mm.c, and the state of the
heap-growth provider (current top `brk` and the capacity `maxHeap`
beyond which growth fails).  The heap occupies byte addresses
`[8, brk)`; address `0` is the null pointer.

Both stores are association lists (newest entry first) so that whole
states are printable and comparable: `mem` maps a 4-aligned byte
address to the 32-bit word stored there, `freelists` maps a bucket
index to its head pointer. -/
structure St where
  mem : List (Nat × Nat)
  heap_listp : Nat
  freelists : List (Nat × Nat)
  brk : Nat
  maxHeap : Nat
deriving DecidableEq, Repr

/-- Association-list lookup, defaulting to 0 (the all-zero initial
store). -/
def alook : List (Nat × Nat) → Nat → Nat
  | [], _ => 0
  | (b, w) :: t, a => if a = b then w else alook t a

/-- `PACK(size, alloc)` from mm.c.  The source uses bitwise or; every
call site passes a size that is a multiple of 8 and an alloc bit in
`{0,1}`, for which bitwise or coincides with addition. -/
def PACK (size alloc : Nat) : Nat := size + alloc

/-- `GET_SIZE`: the size field of a boundary-tag word (`w & ~0x7`). -/
def GET_SIZE (w : Nat) : Nat := w / 8 * 8

/-- `GET_ALLOC`: the allocated bit of a boundary-tag word (`w & 0x1`). -/
def GET_ALLOC (w : Nat) : Nat := w % 2

/-- `HDRP(bp) = (char *)bp - WSIZE`, with 64-bit pointer wraparound
(the wrap is observable: `calloc` evaluates `HDRP` on a null block
pointer when `malloc` fails). -/
def HDRP (bp : Nat) : Nat := (bp + (U64 - 4)) % U64

/-- `ALIGN(p) = ((size_t)(p) + 7) & ~0x7` over `size_t`: rounds up to
a multiple of 8, with 64-bit wraparound. -/
def ALIGN (p : Nat) : Nat := ((p + 7) % U64) / 8 * 8

/-- A word access at byte address `a` is legal when the four bytes
`[a, a+4)` lie inside the heap `[8, brk)` and `a` is word-aligned. -/
def inBnd (s : St) (a : Nat) : Prop := 8 ≤ a ∧ a + 4 ≤ s.brk ∧ a % 4 = 0

instance (s : St) (a : Nat) : Decidable (inBnd s a) := by
  unfold inBnd; infer_instance

/-- `GET(p)`: read the 32-bit word at byte address `a`. -/
def GETw (s : St) (a : Nat) : Except AErr Nat :=
  if inBnd s a then .ok (alook s.mem a % U32) else .error .oob

/-- `PUT(p, val)`: store the 32-bit word `v` (truncated) at `a`. -/
def PUTw (s : St) (a v : Nat) : Except AErr St :=
  if inBnd s a then
    .ok { s with mem := (a, v % U32) :: s.mem }
  else .error .oob

/-- Read the 8-byte pointer `SUCC(bp)` stored in the first payload
word pair of a free block (little-endian word pair). -/
def GETd (s : St) (a : Nat) : Except AErr Nat := do
  let lo ← GETw s a
  let hi ← GETw s (a + 4)
  .ok (lo + U32 * hi)

/-- Store the 8-byte pointer value `v` at `a` (`SUCC(bp) = v`). -/
def PUTd (s : St) (a v : Nat) : Except AErr St := do
  let s1 ← PUTw s a (v % U32)
  PUTw s1 (a + 4) (v / U32)

/-- `GET(HDRP(bp))`: read the header word of the block at `bp`. -/
def hdrw (s : St) (bp : Nat) : Except AErr Nat := GETw s (HDRP bp)

/-- `FTRP(bp)`: address of the footer, computed from the current
header as in the source macro. -/
def ftrpA (s : St) (bp : Nat) : Except AErr Nat := do
  let h ← hdrw s bp
  .ok (bp + GET_SIZE h - DSIZE)

/-- `NEXT_BLKP(bp)`: start of the physically following block. -/
def next_blkp (s : St) (bp : Nat) : Except AErr Nat := do
  let h ← hdrw s bp
  .ok (bp + GET_SIZE h)

/-- `PREV_BLKP(bp)`: start of the physically preceding block, read
from the preceding block's footer at `bp - DSIZE`. -/
def prev_blkp (s : St) (bp : Nat) : Except AErr Nat := do
  let w ← GETw s (bp - DSIZE)
  .ok (bp - GET_SIZE w)

/-- The index loop `for (i = 0; size > 1<<i; i++) {}` shared by
`freelist_insert` and `freelist_remove`: smallest `i` with
`size ≤ 2^i`, stopping after `f` steps. -/
def idxloop (size : Nat) : Nat → Nat → Nat
  | i, 0 => i
  | i, f + 1 => if 2 ^ i < size then idxloop size (i + 1) f else i

/-- Bucket index of a block of the given size: the smallest `i` with
`size ≤ 2^i`, capped at `NUMLIST - 1` (the `i = MIN(i, NUMLIST-1)`
of the source).  64 iterations suffice for any `size < 2^64`. -/
def listIdx (size : Nat) : Nat := min (idxloop size 0 64) (NUMLIST - 1)

/-- `freelist_insert` from mm.c: classify `bp` by its stored size and
push it at the head of its bucket. -/
def freelist_insert (s : St) (bp : Nat) : Except AErr St := do
  let h ← hdrw s bp
  let i := listIdx (GET_SIZE h)
  let s1 ← PUTd s bp (alook s.freelists i)
  .ok { s1 with freelists := (i, bp) :: s1.freelists }

/-- The predecessor scan of `freelist_remove`:
`while (SUCC(prevptr) != bp) prevptr = SUCC(prevptr); SUCC(prevptr) = SUCC(bp);`.
`su` is the value of `SUCC(bp)` (the state is not modified during the
scan, so it is read once). -/
def removeScan (s : St) (bp su : Nat) : Nat → Nat → Except AErr St
  | _, 0 => .error .fuel
  | prevptr, f + 1 => do
    let sp ← GETd s prevptr
    if sp = bp then PUTd s prevptr su
    else removeScan s bp su sp f

/-- `freelist_remove` from mm.c: unlink the free block `bp` from the
bucket selected by its currently stored size. -/
def freelist_remove (fuel : Nat) (s : St) (bp : Nat) : Except AErr St := do
  let su ← GETd s bp
  let sh ← hdrw s su
  let succ_alloc := GET_ALLOC sh
  let h ← hdrw s bp
  let i := listIdx (GET_SIZE h)
  if bp = alook s.freelists i ∧ succ_alloc ≠ 0 then
    .ok { s with freelists := (i, s.heap_listp) :: s.freelists }
  else if bp = alook s.freelists i then
    .ok { s with freelists := (i, su) :: s.freelists }
  else
    removeScan s bp su (alook s.freelists i) fuel

/-- `coalesce`, case "bp has no adjacent free block": insert as-is. -/
def coalesce_case1 (s : St) (bp : Nat) : Except AErr (Nat × St) := do
  let s1 ← freelist_insert s bp
  .ok (bp, s1)

/-- `coalesce`, case "bp has free block to the right": remove the
next block, sum the sizes, rewrite bp's header and (via the updated
header) the combined footer, insert. -/
def coalesce_case2 (fuel : Nat) (s : St) (bp size : Nat) : Except AErr (Nat × St) := do
  let nb1 ← next_blkp s bp
  let s1 ← freelist_remove fuel s nb1
  let nb2 ← next_blkp s1 bp
  let nh2 ← hdrw s1 nb2
  let size2 := size + GET_SIZE nh2
  let s2 ← PUTw s1 (HDRP bp) (PACK size2 0)
  let fa ← ftrpA s2 bp
  let s3 ← PUTw s2 fa (PACK size2 0)
  let s4 ← freelist_insert s3 bp
  .ok (bp, s4)

/-- `coalesce`, case "bp has free block to the left": remove the
previous block, sum the sizes, rewrite bp's footer and the previous
block's header, move bp to the previous block, insert. -/
def coalesce_case3 (fuel : Nat) (s : St) (bp size : Nat) : Except AErr (Nat × St) := do
  let pb1 ← prev_blkp s bp
  let s1 ← freelist_remove fuel s pb1
  let pb2 ← prev_blkp s1 bp
  let ph2 ← hdrw s1 pb2
  let size2 := size + GET_SIZE ph2
  let fa ← ftrpA s1 bp
  let s2 ← PUTw s1 fa (PACK size2 0)
  let pb3 ← prev_blkp s2 bp
  let s3 ← PUTw s2 (HDRP pb3) (PACK size2 0)
  let pb4 ← prev_blkp s3 bp
  let s4 ← freelist_insert s3 pb4
  .ok (pb4, s4)

/-- `coalesce`, case "bp has free blocks to the left and right":
remove both neighbours, sum all three sizes, rewrite the previous
block's header and the next block's footer, move bp to the previous
block, insert. -/
def coalesce_case4 (fuel : Nat) (s : St) (bp size : Nat) : Except AErr (Nat × St) := do
  let nb1 ← next_blkp s bp
  let s1 ← freelist_remove fuel s nb1
  let pb1 ← prev_blkp s1 bp
  let s2 ← freelist_remove fuel s1 pb1
  let pb2 ← prev_blkp s2 bp
  let ph2 ← hdrw s2 pb2
  let nb2 ← next_blkp s2 bp
  let nfa ← ftrpA s2 nb2
  let nfw ← GETw s2 nfa
  let size2 := size + (GET_SIZE ph2 + GET_SIZE nfw)
  let pb3 ← prev_blkp s2 bp
  let s3 ← PUTw s2 (HDRP pb3) (PACK size2 0)
  let nb3 ← next_blkp s3 bp
  let nfa2 ← ftrpA s3 nb3
  let s4 ← PUTw s3 nfa2 (PACK size2 0)
  let pb4 ← prev_blkp s4 bp
  let s5 ← freelist_insert s4 pb4
  .ok (pb4, s5)

/-- `coalesce` from mm.c, translated statement by statement; every
macro argument is re-evaluated in the state current at its use, as in
the source; the four branch bodies are the `coalesce_case*`
functions above. -/
def coalesce (fuel : Nat) (s : St) (bp : Nat) : Except AErr (Nat × St) := do
  let pb ← prev_blkp s bp
  let pfa ← ftrpA s pb
  let pfw ← GETw s pfa
  let prev_alloc := GET_ALLOC pfw
  let nb ← next_blkp s bp
  let nhw ← hdrw s nb
  let next_alloc := GET_ALLOC nhw
  let h ← hdrw s bp
  let size := GET_SIZE h
  if prev_alloc ≠ 0 ∧ next_alloc ≠ 0 then
    coalesce_case1 s bp
  else if prev_alloc ≠ 0 ∧ next_alloc = 0 then
    coalesce_case2 fuel s bp size
  else if prev_alloc = 0 ∧ next_alloc ≠ 0 then
    coalesce_case3 fuel s bp size
  else
    coalesce_case4 fuel s bp size

/-- `place` from mm.c: allocate `asize` bytes at the start of the
free block `bp`, splitting off the remainder when it is at least
`MINSIZE`.  (`csize - asize` cannot underflow at any call site: both
`find_fit` and the freshly extended block guarantee `asize ≤ csize`.) -/
def place (fuel : Nat) (s : St) (bp asize : Nat) : Except AErr St := do
  let h ← hdrw s bp
  let csize := GET_SIZE h
  let s1 ← freelist_remove fuel s bp
  if MINSIZE ≤ csize - asize then do
    let s2 ← PUTw s1 (HDRP bp) (PACK asize 1)
    let fa ← ftrpA s2 bp
    let s3 ← PUTw s2 fa (PACK asize 1)
    let bp2 ← next_blkp s3 bp
    let s4 ← PUTw s3 (HDRP bp2) (PACK (csize - asize) 0)
    let fa2 ← ftrpA s4 bp2
    let s5 ← PUTw s4 fa2 (PACK (csize - asize) 0)
    let r ← coalesce fuel s5 bp2
    .ok r.2
  else do
    let s2 ← PUTw s1 (HDRP bp) (PACK csize 1)
    let fa ← ftrpA s2 bp
    let s3 ← PUTw s2 fa (PACK csize 1)
    .ok s3

/-- One bucket scan of `find_fit`:
`while (!GET_ALLOC(HDRP(bp))) { if (asize <= GET_SIZE(HDRP(bp))) return bp; bp = SUCC(bp); }` -/
def scanList (s : St) (asize : Nat) : Nat → Nat → Except AErr (Option Nat)
  | _, 0 => .error .fuel
  | bp, f + 1 => do
    let h ← hdrw s bp
    if GET_ALLOC h = 0 then
      if asize ≤ GET_SIZE h then .ok (some bp)
      else do
        let su ← GETd s bp
        scanList s asize su f
    else .ok none

/-- The ascending bucket loop of `find_fit`
(`for (i = 0; i < NUMLIST; i++) if (asize <= 1<<i) ...`); the second
argument counts the remaining iterations `NUMLIST - i`. -/
def findLoop (s : St) (asize fuel : Nat) : Nat → Nat → Except AErr (Option Nat)
  | _, 0 => .ok none
  | i, r + 1 =>
    if asize ≤ 2 ^ i then do
      let res ← scanList s asize (alook s.freelists i) fuel
      match res with
      | some bp => .ok (some bp)
      | none => findLoop s asize fuel (i + 1) r
    else findLoop s asize fuel (i + 1) r

/-- `find_fit` from mm.c: first-fit search over the segregated lists. -/
def find_fit (s : St) (asize fuel : Nat) : Except AErr (Option Nat) :=
  if 2 ^ (NUMLIST - 1) < asize then
    scanList s asize (alook s.freelists (NUMLIST - 1)) fuel
  else
    findLoop s asize fuel 0 NUMLIST

/-- The heap-growth provider.

Modelled from the spec: `mem_sbrk` of `memlib` is not part of the
repository; per spec §6 it is
`grow(byte_count) -> old_top_address | failure`, extending the heap
contiguously, failing when the backing store is exhausted.  Failure
leaves the heap untouched. -/
def mem_sbrk (s : St) (incr : Nat) : Option (Nat × St) :=
  if s.brk + incr ≤ s.maxHeap then
    some (s.brk, { s with brk := s.brk + incr })
  else none

/-- `extend_heap` from mm.c: grow the heap by `words` words (rounded
up to an even count), lay down the free-block tags and the new
epilogue header, and coalesce with a trailing free block. -/
def extend_heap (fuel : Nat) (s : St) (words : Nat) : Except AErr (Option Nat × St) := do
  let size := if words % 2 = 1 then (words + 1) * WSIZE else words * WSIZE
  match mem_sbrk s size with
  | none => .ok (none, s)
  | some (bp, s1) => do
    let s2 ← PUTw s1 (HDRP bp) (PACK size 0)
    let fa ← ftrpA s2 bp
    let s3 ← PUTw s2 fa (PACK size 0)
    let nb ← next_blkp s3 bp
    let s4 ← PUTw s3 (HDRP nb) (PACK 0 1)
    let r ← coalesce fuel s4 bp
    .ok (some r.1, r.2)

/-- The adjusted block size computed by `malloc`:
`size = MAX(ALIGN(size + DSIZE), MINSIZE)`. -/
def adjSize (size : Nat) : Nat := max (ALIGN (size + DSIZE)) MINSIZE

/-- The word count `malloc` passes to `extend_heap` on a fit miss:
`MAX(size, CHUNKSIZE) / WSIZE`. -/
def growWords (asize : Nat) : Nat := max asize CHUNKSIZE / WSIZE

/-- `malloc` from mm.c. -/
def malloc (fuel : Nat) (s : St) (size0 : Nat) : Except AErr (Option Nat × St) := do
  let asize := adjSize size0
  let r ← find_fit s asize fuel
  match r with
  | some bp => do
    let s1 ← place fuel s bp asize
    .ok (some bp, s1)
  | none =>
    match ← extend_heap fuel s (growWords asize) with
    | (none, s1) => .ok (none, s1)
    | (some bp, s1) => do
      let s2 ← place fuel s1 bp asize
      .ok (some bp, s2)

/-- `free` from mm.c (`mfree` in this development; `free` collides
with a Mathlib name): clear the allocated bit of header and footer,
then coalesce.  No-op on the null pointer. -/
def mfree (fuel : Nat) (s : St) (ptr : Nat) : Except AErr St :=
  if ptr = 0 then .ok s
  else do
    let h ← hdrw s ptr
    let size := GET_SIZE h
    let s1 ← PUTw s (HDRP ptr) (PACK size 0)
    let fa ← ftrpA s1 ptr
    let s2 ← PUTw s1 fa (PACK size 0)
    let r ← coalesce fuel s2 ptr
    .ok r.2

/-- Byte-granular copy `memcpy(dst, src, n)` on the word-granular
memory (both block payload pointers are 8-aligned in the source;
lengths may be arbitrary). Reads the byte at `src + k`, writes it
into the word containing `dst + k`. -/
def byteGet (s : St) (a : Nat) : Except AErr Nat := do
  let w ← GETw s (a - a % 4)
  .ok (w / 256 ^ (a % 4) % 256)

/-- Write a single byte `v` at byte address `a`. -/
def bytePut (s : St) (a v : Nat) : Except AErr St := do
  let w ← GETw s (a - a % 4)
  let p := 256 ^ (a % 4)
  PUTw s (a - a % 4) (w % p + v % 256 * p + w / (p * 256) * (p * 256))

/-- `memcpy(dst, src, n)`: forward byte copy (the source relies on
`memcpy`'s no-overlap contract). -/
def memcpy : St → Nat → Nat → Nat → Except AErr St
  | s, _, _, 0 => .ok s
  | s, dst, src, n + 1 => do
    let b ← byteGet s src
    let s1 ← bytePut s dst b
    memcpy s1 (dst + 1) (src + 1) n

/-- `realloc` from mm.c. -/
def realloc (fuel : Nat) (s : St) (oldptr size : Nat) : Except AErr (Option Nat × St) := do
  if size = 0 then do
    let s1 ← mfree fuel s oldptr
    .ok (none, s1)
  else if oldptr = 0 then
    malloc fuel s size
  else
    match ← malloc fuel s size with
    | (none, s1) => .ok (none, s1)
    | (some newptr, s1) => do
      let h ← hdrw s1 oldptr
      let oldsize := min (GET_SIZE h) size
      let s2 ← memcpy s1 newptr oldptr oldsize
      let s3 ← mfree fuel s2 oldptr
      .ok (some newptr, s3)

/-- The zero-fill loop of `calloc`,
`for (i = 0; i < payload_size; i = i + WSIZE) PUT(bp + i, 0);`,
reformulated with its exact iteration count `⌈payload_size / 4⌉`:
`zeroWords s a k` zeroes the `k` words at `a, a+4, …`. -/
def zeroWords : St → Nat → Nat → Except AErr St
  | s, _, 0 => .ok s
  | s, a, k + 1 => do
    let s1 ← PUTw s a 0
    zeroWords s1 (a + 4) k

/-- `calloc` from mm.c.  The source does not check `malloc`'s result:
a null result is dereferenced (`GET_SIZE(HDRP(bp))` with `bp = 0`
reads the word at address `2^64 - 4`, outside the heap). -/
def calloc (fuel : Nat) (s : St) (nmemb size : Nat) : Except AErr (Option Nat × St) := do
  let (r, s1) ← malloc fuel s (nmemb * size % U64)
  let bp := r.getD 0
  let h ← hdrw s1 bp
  let payload_size := GET_SIZE h - DSIZE
  let s2 ← zeroWords s1 bp ((payload_size + 3) / 4)
  .ok (r, s2)

/-- `mm_init` from mm.c: lay down padding, prologue and epilogue,
point every bucket head at the prologue, and seed the heap with a
`CHUNKSIZE` free block.  Returns `false` for the C `-1`. -/
def mm_init (fuel : Nat) (s : St) : Except AErr (Bool × St) :=
  match mem_sbrk s (4 * WSIZE) with
  | none => .ok (false, { s with heap_listp := U64 - 1 })
  | some (hp, s1) => do
    let s2 ← PUTw s1 hp 0
    let s3 ← PUTw s2 (hp + 1 * WSIZE) (PACK DSIZE 1)
    let s4 ← PUTw s3 (hp + 2 * WSIZE) (PACK DSIZE 1)
    let s5 ← PUTw s4 (hp + 3 * WSIZE) (PACK 0 1)
    let hlp := hp + 2 * WSIZE
    let s6 : St := { s5 with heap_listp := hlp,
                             freelists :=
                               (List.range NUMLIST).foldl (fun l i => (i, hlp) :: l) s5.freelists }
    match ← extend_heap fuel s6 (CHUNKSIZE / WSIZE) with
    | (none, s7) => .ok (false, s7)
    | (some _, s7) => .ok (true, s7)

/-- The empty pre-init state over a provider of capacity `cap`:
memory all zero, heap `[8, 8)`. -/
def initSt (cap : Nat) : St :=
  { mem := [], heap_listp := 0, freelists := [], brk := 8, maxHeap := cap }

instance {ε α : Type} [DecidableEq ε] [DecidableEq α] : DecidableEq (Except ε α) :=
  fun x y =>
    match x, y with
    | .ok a, .ok b =>
        if h : a = b then .isTrue (congrArg Except.ok h)
        else .isFalse (fun hh => h (Except.ok.inj hh))
    | .error e, .error f =>
        if h : e = f then .isTrue (congrArg Except.error h)
        else .isFalse (fun hh => h (Except.error.inj hh))
    | .ok _, .error _ => .isFalse (fun hh => Except.noConfusion hh)
    | .error _, .ok _ => .isFalse (fun hh => Except.noConfusion hh)

/-- The bucket table right after `mm_init`'s loop: every bucket head
points at the prologue sentinel 16. -/
def fl0 : List (Nat × Nat) := (List.range NUMLIST).foldl (fun l i => (i, 16) :: l) []

/-- A concrete initialized heap: provider capacity 280 bytes, which
`mm_init` consumes exactly (16 bytes of padding/prologue/epilogue plus
the initial 256-byte free block); no further growth is possible.
Reachability from the empty state is proved in `heap0_reach`. -/
def heap0 : St :=
  { mem := [(28, 0), (24, 16), (276, 1), (272, 256), (20, 256), (20, 1), (16, 9), (12, 9), (8, 0)],
    heap_listp := 16,
    freelists := (8, 24) :: fl0,
    brk := 280, maxHeap := 280 }

/-- `heap0` after `malloc 16` handed out the block at 24 (size 24),
splitting the initial free block; see `heapA_reach`. -/
def heapA : St :=
  { mem := [(52, 0), (48, 16), (272, 232), (44, 232), (40, 25), (20, 25)] ++ heap0.mem,
    heap_listp := 16,
    freelists := (8, 48) :: (8, 16) :: (8, 24) :: fl0,
    brk := 280, maxHeap := 280 }

/-- `heapA` after a second `malloc 16` handed out the block at 48;
see `heapB_reach`. -/
def heapB : St :=
  { mem := [(76, 0), (72, 16), (272, 208), (68, 208), (64, 25), (44, 25)] ++ heapA.mem,
    heap_listp := 16,
    freelists := (8, 72) :: (8, 16) :: heapA.freelists,
    brk := 280, maxHeap := 280 }

/-- A concrete reachable heap in which the head of bucket 5 is a free
block of size 24: `heapB` after releasing the block at 24 (both its
physical neighbours are allocated, so coalescing inserts it as-is);
see `heapC4_reach`. -/
def heapC4 : St :=
  { mem := [(28, 0), (24, 16), (40, 24), (20, 24)] ++ heapB.mem,
    heap_listp := 16,
    freelists := (5, 24) :: heapB.freelists,
    brk := 280, maxHeap := 280 }

/-- The state in the middle of `free(24)` on `heapB`: the header (at
20) and footer (at 40) of the 24-byte block at 24 have just been
rewritten to `PACK 24 0` and `coalesce` is about to run.  The block's
left physical neighbour is the allocated prologue (footer 9 at 16),
its right neighbour the allocated block at 48 (header 25 at 44). -/
def heapC4pre : St := { heapB with mem := (40, 24) :: (20, 24) :: heapB.mem }

/-- Spec-side rounding: `round_up_to_8(n)` over unbounded naturals
(spec §4.2), to be compared with the source's `ALIGN`. -/
def roundUp8 (n : Nat) : Nat := (n + 7) / 8 * 8

/-- The byte count `malloc`'s miss path requests from the provider:
`growWords` words rounded up to an even word count, as in
`extend_heap`. -/
def growBytes (asize : Nat) : Nat :=
  if growWords asize % 2 = 1 then (growWords asize + 1) * WSIZE
  else growWords asize * WSIZE

/-- A concrete heap with no free block and an exhausted provider:
`heap0` after allocating the whole initial 256-byte free block; see
`heapFull_reach`. -/
def heapFull : St :=
  { mem := [(272, 257), (20, 257)] ++ heap0.mem,
    heap_listp := 16,
    freelists := (8, 16) :: heap0.freelists,
    brk := 280, maxHeap := 280 }

/-- Spec-side (§4.4): the contents of one bucket's free list, read by
following successor links from a head pointer until a block whose
header is marked allocated (the prologue sentinel) ends the chain;
each entry is paired with its header word. -/
def chainList (s : St) : Nat → Nat → Except AErr (List (Nat × Nat))
  | _, 0 => .error .fuel
  | bp, f + 1 => do
    let h ← hdrw s bp
    if GET_ALLOC h = 0 then do
      let su ← GETd s bp
      let rest ← chainList s su f
      .ok ((bp, h) :: rest)
    else .ok []

/-- Spec-side (§4.4): the concatenation of the chains of the given
bucket indices, in order. -/
def chainsCat (s : St) (fuel : Nat) : List Nat → Except AErr (List (Nat × Nat))
  | [] => .ok []
  | i :: rest => do
    let l ← chainList s (alook s.freelists i) fuel
    let r ← chainsCat s fuel rest
    .ok (l ++ r)

/-- Spec-side (§4.4): first-fit — the first listed block whose stored
size is at least `asize`. -/
def firstFit (asize : Nat) (l : List (Nat × Nat)) : Option Nat :=
  (l.find? (fun q => decide (asize ≤ GET_SIZE q.2))).map Prod.fst

theorem heap0_reach : mm_init 100 (initSt 280) = .ok (true, heap0) := by decide

theorem heapA_reach : malloc 100 heap0 16 = .ok (some 24, heapA) := by decide

theorem heapB_reach : malloc 100 heapA 16 = .ok (some 48, heapB) := by decide

theorem heapC4_reach : mfree 100 heapB 24 = .ok heapC4 := by decide

theorem heapFull_reach : malloc 100 heap0 248 = .ok (some 24, heapFull) := by decide

theorem ok_bind {α β : Type} (a : α) (f : α → Except AErr β) :
    (Except.ok a : Except AErr α) >>= f = f a := rfl

theorem error_bind {α β : Type} (e : AErr) (f : α → Except AErr β) :
    (Except.error e : Except AErr α) >>= f = .error e := rfl

/-- Inversion of a successful monadic bind: the first action succeeded
and the continuation of its result produced the final value. -/
theorem bind_eq_ok {α β : Type} {x : Except AErr α} {k : α → Except AErr β} {b : β}
    (h : (x >>= k) = .ok b) : ∃ a, x = .ok a ∧ k a = .ok b := by
  cases x with
  | error e => rw [error_bind] at h; exact absurd h (fun hh => by injection hh)
  | ok a => rw [ok_bind] at h; exact ⟨a, rfl, h⟩

/-- If `malloc` returned a null pointer, the fit search came up
empty, the provider refused the growth request, and the state was
returned unchanged. -/
theorem malloc_none_elim (fuel : Nat) (s : St) (size0 : Nat) (s' : St)
    (h : malloc fuel s size0 = .ok (none, s')) :
    s' = s ∧ find_fit s (adjSize size0) fuel = .ok none ∧
      mem_sbrk s (growBytes (adjSize size0)) = none := by
  have hg : (if growWords (adjSize size0) % 2 = 1 then (growWords (adjSize size0) + 1) * WSIZE
      else growWords (adjSize size0) * WSIZE) = growBytes (adjSize size0) := rfl
  simp only [malloc, extend_heap, hg] at h
  cases e : find_fit s (adjSize size0) fuel with
  | error err => rw [e, error_bind] at h; injection h
  | ok r =>
    rw [e, ok_bind] at h
    cases r with
    | some bp =>
      obtain ⟨t, -, h2⟩ := bind_eq_ok h
      injection h2 with h3
      injection h3 with h4 h5
      injection h4
    | none =>
      cases m : mem_sbrk s (growBytes (adjSize size0)) with
      | none =>
        rw [m] at h
        injection h with h3
        injection h3 with h4 h5
        exact ⟨h5.symm, rfl, rfl⟩
      | some bs =>
        obtain ⟨bp, s1⟩ := bs
        rw [m] at h
        obtain ⟨t, hx, h⟩ := bind_eq_ok h
        obtain ⟨s2, -, hx⟩ := bind_eq_ok hx
        obtain ⟨fa, -, hx⟩ := bind_eq_ok hx
        obtain ⟨s3, -, hx⟩ := bind_eq_ok hx
        obtain ⟨nb, -, hx⟩ := bind_eq_ok hx
        obtain ⟨s4, -, hx⟩ := bind_eq_ok hx
        obtain ⟨cs, -, hx⟩ := bind_eq_ok hx
        injection hx with h6
        rw [← h6] at h
        obtain ⟨s6, -, h⟩ := bind_eq_ok h
        injection h with h3
        injection h3 with h4 h5
        injection h4

/-- Conversely, when the fit search fails and the provider refuses
the growth request, `malloc` returns null with the state unchanged. -/
theorem malloc_none_intro (fuel : Nat) (s : St) (size0 : Nat)
    (e : find_fit s (adjSize size0) fuel = .ok none)
    (m : mem_sbrk s (growBytes (adjSize size0)) = none) :
    malloc fuel s size0 = .ok (none, s) := by
  have hg : (if growWords (adjSize size0) % 2 = 1 then (growWords (adjSize size0) + 1) * WSIZE
      else growWords (adjSize size0) * WSIZE) = growBytes (adjSize size0) := rfl
  simp only [malloc, extend_heap, hg]
  rw [e, ok_bind, m]
  rfl

/-- `malloc` returns a null pointer exactly when the fit search came
up empty and the provider refused the requested growth; in that case
the state is returned unchanged. -/
theorem malloc_none_iff (fuel : Nat) (s : St) (size0 : Nat) (s' : St) :
    malloc fuel s size0 = .ok (none, s') ↔
      (s' = s ∧ find_fit s (adjSize size0) fuel = .ok none ∧
        mem_sbrk s (growBytes (adjSize size0)) = none) := by
  constructor
  · exact malloc_none_elim fuel s size0 s'
  · rintro ⟨h1, e, m⟩
    rw [h1]
    exact malloc_none_intro fuel s size0 e m

/-- C2: `calloc` does not check `malloc`'s result.  On `heapFull`
(no free block, provider exhausted) the underlying allocation fails
returning null, and `calloc` then dereferences the null block pointer
— it reads the header word at address `NULL - 4 = 2^64 - 4`, outside
the heap — instead of returning null.  On the success path the
payload is zero-filled: `calloc(3, 5)` on `heap0` yields the block at
24 whose four payload words are all zero. -/
theorem C2_calloc_null_deref :
    calloc 100 heapFull 1 1 = .error .oob ∧
    Except.map Prod.fst (malloc 100 heapFull (1 * 1 % U64)) = .ok none ∧
    Except.map (fun r => (r.1, alook r.2.mem 24, alook r.2.mem 28, alook r.2.mem 32,
        alook r.2.mem 36)) (calloc 100 heap0 3 5) = .ok (some 24, 0, 0, 0, 0) := by
  refine ⟨by decide, by decide, by decide⟩

/-- C10: for every requested size greater than `SIZE_MAX - 15`, the
adjusted block size `MAX(ALIGN(size + DSIZE), MINSIZE)` wraps around
`size_t` and collapses to the minimum block size 16, so `malloc`
behaves exactly like a minimum-size request instead of failing; on
the concrete initialized heap it hands out a live 16-byte block for a
request of `2^64 - 1` bytes. -/
theorem C10_align_wraparound (size : Nat) (h1 : U64 - 15 ≤ size) (h2 : size < U64) :
    adjSize size = MINSIZE ∧
    (∀ fuel s, malloc fuel s size = malloc fuel s 0) ∧
    Except.map (fun r => (r.1, GET_SIZE (alook r.2.mem 20), GET_ALLOC (alook r.2.mem 20)))
        (malloc 100 heap0 size) = .ok (some 24, 16, 1) := by
  have hU : U64 = 18446744073709551616 := rfl
  have hA : adjSize size = 16 := by
    unfold adjSize ALIGN
    have h3 : size + DSIZE + 7 = size + 15 := by simp [DSIZE]
    rw [h3]
    have h4 : (size + 15) % U64 = size + 15 - U64 := by
      rw [Nat.mod_eq_sub_mod (by omega)]
      exact Nat.mod_eq_of_lt (by omega)
    rw [h4]
    have h5 : size + 15 - U64 < 15 := by omega
    have h6 : (size + 15 - U64) / 8 * 8 ≤ 8 := by omega
    simp [MINSIZE]
    omega
  have hB : ∀ fuel s, malloc fuel s size = malloc fuel s 0 := by
    intro fuel s
    unfold malloc
    rw [hA, show adjSize 0 = 16 from rfl]
  refine ⟨hA, hB, ?_⟩
  rw [hB 100 heap0]
  decide

/-- C10 witness at the concrete request `2^64 - 1`. -/
theorem C10_witness :
    U64 - 15 ≤ U64 - 1 ∧ U64 - 1 < U64 ∧
      adjSize (U64 - 1) = MINSIZE ∧ malloc 100 heap0 (U64 - 1) = malloc 100 heap0 0 :=
  ⟨by decide, by decide,
   (C10_align_wraparound (U64 - 1) (by decide) (by decide)).1,
   (C10_align_wraparound (U64 - 1) (by decide) (by decide)).2.1 100 heap0⟩

/-- C4 counterexample: on the reachable heap `heapC4` (whose bucket 5
holds a free block of size 24), a request of size 0 yields a live
block whose recorded size is 24, not the minimum size 16 — `place`
hands out the whole 24-byte block because the 8-byte remainder is too
small to split. -/
theorem C4_counterexample_request_zero :
    Except.map (fun r => (r.1, GET_SIZE (alook r.2.mem 20), GET_ALLOC (alook r.2.mem 20)))
        (malloc 100 heapC4 0) = .ok (some 24, 24, 1) ∧ (24 : Nat) ≠ MINSIZE := by
  constructor
  · decide
  · decide

/-- C4 (amended): `malloc` computes the required block size as
`max(round_up_to_8(requested + 8), 16)` — in `size_t` arithmetic,
which agrees with the plain formula whenever `requested + 15` does
not overflow; a request of size 0 computes the minimum required size
16, and returns a failure indicator only when the provider cannot
supply the default chunk, leaving the state unchanged (the live block
handed out may be larger than 16 when the fitted block does not
split, per the counterexample). -/
theorem C4_adjusted_size_formula :
    (∀ size, size + 15 < U64 → adjSize size = max (roundUp8 (size + DSIZE)) MINSIZE) ∧
    adjSize 0 = MINSIZE ∧
    (∀ fuel s s', malloc fuel s 0 = .ok (none, s') →
      mem_sbrk s CHUNKSIZE = none ∧ s' = s) := by
  refine ⟨?_, rfl, ?_⟩
  · intro size h
    unfold adjSize ALIGN roundUp8
    have h3 : size + DSIZE + 7 = size + 8 + 7 := by simp [DSIZE]
    rw [h3, Nat.mod_eq_of_lt (by omega)]
  · intro fuel s s' h
    have h2 := (malloc_none_iff fuel s 0 s').mp h
    refine ⟨?_, h2.1⟩
    have : growBytes (adjSize 0) = CHUNKSIZE := rfl
    rw [← this]
    exact h2.2.2

/-- C4 witness: the size formula at request 5, and the failure case
on the exhausted heap `heapFull`. -/
theorem C4_witness :
    ((5 : Nat) + 15 < U64 ∧ adjSize 5 = max (roundUp8 (5 + DSIZE)) MINSIZE) ∧
      (mem_sbrk heapFull CHUNKSIZE = none ∧ heapFull = heapFull) :=
  ⟨⟨by decide, C4_adjusted_size_formula.1 5 (by decide)⟩,
   C4_adjusted_size_formula.2.2 100 heapFull heapFull rfl⟩

/-- C9 counterexample: `reallocate(null, n)` is *not* equivalent to
`allocate(n)` at `n = 0`: on `heap0`, `realloc(NULL, 0)` takes the
`size == 0` path, frees the null pointer (a no-op) and returns null,
while `malloc(0)` returns a live pointer. -/
theorem C9_counterexample_realloc_null_zero :
    Except.map Prod.fst (realloc 100 heap0 0 0) = .ok none ∧
    Except.map Prod.fst (malloc 100 heap0 0) = .ok (some 24) ∧
    Except.map Prod.fst (realloc 100 heap0 0 0) ≠ Except.map Prod.fst (malloc 100 heap0 0) := by
  refine ⟨by decide, by decide, by decide⟩

/-- C9 (amended): `reallocate(p, 0)` has exactly the effect of
`release(p)` and returns null; `reallocate(null, n)` for `n > 0` is
exactly `allocate(n)`; and when the new allocation inside
`reallocate` fails, the heap is left exactly as it was (the old block
fully intact) and null is returned. -/
theorem C9_realloc_edge_cases :
    (∀ fuel s p, realloc fuel s p 0 =
        (mfree fuel s p).map (fun t => ((none : Option Nat), t))) ∧
    (∀ fuel s n, 0 < n → realloc fuel s 0 n = malloc fuel s n) ∧
    (∀ fuel s p n s1, 0 < n → p ≠ 0 → malloc fuel s n = .ok (none, s1) →
        realloc fuel s p n = .ok (none, s)) := by
  refine ⟨?_, ?_, ?_⟩
  · intro fuel s p
    show (do
        let s1 ← mfree fuel s p
        .ok ((none : Option Nat), s1)) = _
    cases h : mfree fuel s p with
    | error e1 => rfl
    | ok t => rfl
  · intro fuel s n hn
    unfold realloc
    rw [if_neg (by omega), if_pos rfl]
  · intro fuel s p n s1 hn hp h
    have h2 := (malloc_none_iff fuel s n s1).mp h
    unfold realloc
    rw [if_neg (by omega), if_neg hp, h, ok_bind]
    rw [h2.1]

/-- C9 witness: the three amended clauses at concrete inputs. -/
theorem C9_witness :
    realloc 100 heap0 24 0 = (mfree 100 heap0 24).map (fun t => ((none : Option Nat), t)) ∧
    realloc 100 heap0 0 5 = malloc 100 heap0 5 ∧
    realloc 100 heap0 24 1000 = .ok (none, heap0) :=
  ⟨C9_realloc_edge_cases.1 100 heap0 24,
   C9_realloc_edge_cases.2.1 100 heap0 5 (by decide),
   C9_realloc_edge_cases.2.2 100 heap0 24 1000 heap0 (by decide) (by decide) rfl⟩

/-- C3: `malloc` returns null exactly when the fit search failed and
the heap-growth provider refused the resulting growth request, and in
that case the entire allocator state — every block and every bucket —
is returned unchanged. -/
theorem C3_malloc_null_iff_provider_failure (fuel : Nat) (s : St) (size0 : Nat)
    (res : Option Nat) (s' : St) (h : malloc fuel s size0 = .ok (res, s')) :
    (res = none ↔
      (find_fit s (adjSize size0) fuel = .ok none ∧
        mem_sbrk s (growBytes (adjSize size0)) = none)) ∧
    (res = none → s' = s) := by
  cases res with
  | none =>
    have h2 := (malloc_none_iff fuel s size0 s').mp h
    exact ⟨iff_of_true rfl ⟨h2.2.1, h2.2.2⟩, fun _ => h2.1⟩
  | some bp =>
    constructor
    · constructor
      · intro hh; injection hh
      · rintro ⟨hf, hm⟩
        have h3 : malloc fuel s size0 = .ok (none, s) :=
          (malloc_none_iff fuel s size0 s).mpr ⟨rfl, hf, hm⟩
        rw [h] at h3
        injection h3 with h4
        injection h4 with h5 h6
    · intro hh; injection hh

/-- C3 witness: a request of 1000 bytes on the 280-byte-capacity
`heap0` exceeds what the provider can supply: `malloc` returns null
and the state—hence every structural invariant—is unchanged. -/
theorem C3_witness :
    ((none : Option Nat) = none ↔
      (find_fit heap0 (adjSize 1000) 100 = .ok none ∧
        mem_sbrk heap0 (growBytes (adjSize 1000)) = none)) ∧
    ((none : Option Nat) = none → heap0 = heap0) :=
  C3_malloc_null_iff_provider_failure 100 heap0 1000 none heap0 rfl

/-- The index loop reaches, and stops at, the first index at or after
`j` whose power of two bounds `size`. -/
theorem idxloop_min (size : Nat) :
    ∀ (f j k : Nat), j ≤ k → k ≤ j + f → size ≤ 2 ^ k →
      size ≤ 2 ^ idxloop size j f ∧ idxloop size j f ≤ k := by
  intro f
  induction f with
  | zero =>
    intro j k h1 h2 h3
    have : k = j := Nat.le_antisymm (by omega) h1
    subst this
    exact ⟨h3, Nat.le_refl _⟩
  | succ f ih =>
    intro j k h1 h2 h3
    simp only [idxloop]
    by_cases hj : 2 ^ j < size
    · rw [if_pos hj]
      have hkj : j ≠ k := fun hh => by subst hh; omega
      exact ih (j + 1) k (by omega) (by omega) h3
    · rw [if_neg hj]
      exact ⟨by omega, h1⟩

/-- If every index below `m` is too small for `size`, the index loop
runs at least to `m` (or to its fuel bound). -/
theorem idxloop_lb (size : Nat) :
    ∀ (f j m : Nat), (∀ k, j ≤ k → k < m → 2 ^ k < size) →
      min m (j + f) ≤ idxloop size j f := by
  intro f
  induction f with
  | zero => intro j m _; simp only [idxloop]; omega
  | succ f ih =>
    intro j m hk
    simp only [idxloop]
    by_cases hj : 2 ^ j < size
    · rw [if_pos hj]
      have := ih (j + 1) m (fun k hk1 hk2 => hk k (by omega) hk2)
      omega
    · rw [if_neg hj]
      have hm : ¬ j < m := fun hh => absurd (hk j (Nat.le_refl _) hh) hj
      omega

/-- `listIdx` is below every bucket index (up to the last bucket)
whose size class admits `size`, and its own class admits `size`. -/
theorem listIdx_le (size i : Nat) (hi : i ≤ 24) (h : size ≤ 2 ^ i) :
    listIdx size ≤ i ∧ size ≤ 2 ^ listIdx size := by
  have h2 := idxloop_min size 64 0 i (Nat.zero_le _) (by omega) h
  have h3 : listIdx size = idxloop size 0 64 := by
    unfold listIdx NUMLIST
    omega
  rw [h3]
  exact ⟨h2.2, h2.1⟩

/-- A size beyond the last bounded class lands in the catch-all
bucket `NUMLIST - 1 = 24`. -/
theorem listIdx_last (size : Nat) (h : 2 ^ 24 < size) : listIdx size = 24 := by
  have h2 := idxloop_lb size 64 0 25 (fun k _ hk2 => by
    calc 2 ^ k ≤ 2 ^ 24 := Nat.pow_le_pow_right (by omega) (by omega)
    _ < size := h)
  unfold listIdx NUMLIST
  omega

/-- `listIdx` never exceeds the catch-all bucket index. -/
theorem listIdx_le24 (size : Nat) : listIdx size ≤ 24 :=
  Nat.min_le_right _ _

/-- First-fit over an appended list searches the first part first. -/
theorem firstFit_append (asize : Nat) (l1 l2 : List (Nat × Nat)) :
    firstFit asize (l1 ++ l2) =
      match firstFit asize l1 with
      | some bp => some bp
      | none => firstFit asize l2 := by
  induction l1 with
  | nil => rfl
  | cons a l ih =>
    by_cases ha : asize ≤ GET_SIZE a.2
    · unfold firstFit
      rw [List.cons_append, List.find?_cons_of_pos _ (by simpa using ha),
        List.find?_cons_of_pos _ (by simpa using ha)]
      rfl
    · unfold firstFit
      rw [List.cons_append, List.find?_cons_of_neg _ (by simpa using ha),
        List.find?_cons_of_neg _ (by simpa using ha)]
      exact ih

/-- The bucket scan of `find_fit` returns exactly the first fit of
the bucket's chain. -/
theorem scanList_eq_chain (s : St) (asize : Nat) :
    ∀ (f bp : Nat) (l : List (Nat × Nat)),
      chainList s bp f = .ok l → scanList s asize bp f = .ok (firstFit asize l) := by
  intro f
  induction f with
  | zero => intro bp l hc; injection hc
  | succ f ih =>
    intro bp l hc
    simp only [chainList] at hc
    obtain ⟨h, hh, hc⟩ := bind_eq_ok hc
    simp only [scanList]
    rw [hh, ok_bind]
    by_cases hal : GET_ALLOC h = 0
    · rw [if_pos hal] at hc
      rw [if_pos hal]
      obtain ⟨su, hsu, hc⟩ := bind_eq_ok hc
      obtain ⟨rest, hrest, hc⟩ := bind_eq_ok hc
      have hl := Except.ok.inj hc
      subst hl
      by_cases hfit : asize ≤ GET_SIZE h
      · rw [if_pos hfit]
        unfold firstFit
        rw [List.find?_cons_of_pos _ (by simpa using hfit)]
        rfl
      · rw [if_neg hfit, hsu, ok_bind, ih su rest hrest]
        unfold firstFit
        rw [List.find?_cons_of_neg _ (by simpa using hfit)]
    · rw [if_neg hal] at hc
      rw [if_neg hal]
      have hl := Except.ok.inj hc
      subst hl
      rfl

/-- The ascending bucket loop of `find_fit`, started at `i`, returns
the first fit of the concatenated chains of buckets
`max i (listIdx asize) .. 24`. -/
theorem findLoop_eq (s : St) (asize fuel : Nat) (hs : asize ≤ 2 ^ 24) :
    ∀ (r i : Nat), i + r = 25 →
      ∀ l, chainsCat s fuel
          (List.range' (max i (listIdx asize)) (25 - max i (listIdx asize))) = .ok l →
        findLoop s asize fuel i r = .ok (firstFit asize l) := by
  intro r
  induction r with
  | zero =>
    intro i hi l hcc
    have h24 := listIdx_le24 asize
    have hm : max i (listIdx asize) = 25 := by omega
    rw [hm] at hcc
    simp only [Nat.sub_self, List.range'] at hcc
    injection hcc with hl
    subst hl
    rfl
  | succ r ih =>
    intro i hi l hcc
    simp only [findLoop]
    by_cases hc : asize ≤ 2 ^ i
    · rw [if_pos hc]
      have hi24 : i ≤ 24 := by omega
      have hli : listIdx asize ≤ i := (listIdx_le asize i hi24 hc).1
      have hm : max i (listIdx asize) = i := by omega
      rw [hm] at hcc
      have hrange : List.range' i (25 - i) = i :: List.range' (i + 1) r := by
        have : 25 - i = r + 1 := by omega
        rw [this]
        rfl
      rw [hrange] at hcc
      simp only [chainsCat] at hcc
      obtain ⟨li, hli2, hcc⟩ := bind_eq_ok hcc
      obtain ⟨lrest, hrest, hcc⟩ := bind_eq_ok hcc
      injection hcc with hl
      subst hl
      rw [scanList_eq_chain s asize fuel _ li hli2, ok_bind]
      cases hff : firstFit asize li with
      | some bp =>
        rw [firstFit_append, hff]
      | none =>
        have hm2 : max (i + 1) (listIdx asize) = i + 1 := by omega
        have hr2 : 25 - (i + 1) = r := by omega
        have h2 := ih (i + 1) (by omega) lrest (by rw [hm2, hr2]; exact hrest)
        rw [h2, firstFit_append, hff]
    · rw [if_neg hc]
      have hli : i < listIdx asize := by
        have h2 : asize ≤ 2 ^ listIdx asize := (listIdx_le asize 24 (Nat.le_refl _) hs).2
        have h3 : 2 ^ i < 2 ^ listIdx asize := by omega
        exact (Nat.pow_lt_pow_iff_right (by omega)).mp h3
      have hm : max i (listIdx asize) = max (i + 1) (listIdx asize) := by omega
      rw [hm] at hcc
      exact ih (i + 1) (by omega) l hcc

/-- C5: the fit search starts at the smallest bucket index whose size
class admits the required size (the catch-all bucket 24 when none
does), scans each bucket from its head in link order, continues
through the larger-indexed buckets in ascending order, and returns
the first listed block whose size is at least the required size — or
null when every chain is exhausted.  `l` is the concatenation of the
scanned buckets' chains. -/
theorem C5_find_fit_first_fit (s : St) (asize fuel : Nat) (l : List (Nat × Nat))
    (hcc : chainsCat s fuel
        (List.range' (listIdx asize) (NUMLIST - listIdx asize)) = .ok l) :
    (listIdx asize ≤ NUMLIST - 1 ∧
      (0 < listIdx asize → 2 ^ (listIdx asize - 1) < asize) ∧
      (asize ≤ 2 ^ listIdx asize ∨ (2 ^ (NUMLIST - 1) < asize ∧ listIdx asize = NUMLIST - 1))) ∧
    find_fit s asize fuel = .ok (firstFit asize l) := by
  have h24 := listIdx_le24 asize
  constructor
  · refine ⟨by unfold NUMLIST; omega, ?_, ?_⟩
    · intro hpos
      by_contra hcon
      have h2 : asize ≤ 2 ^ (listIdx asize - 1) := by omega
      have h3 := (listIdx_le asize (listIdx asize - 1) (by omega) h2).1
      omega
    · by_cases hs : asize ≤ 2 ^ 24
      · exact Or.inl (listIdx_le asize 24 (Nat.le_refl _) hs).2
      · exact Or.inr ⟨by unfold NUMLIST; omega,
          by exact listIdx_last asize (by omega)⟩
  · unfold find_fit
    by_cases hbig : 2 ^ (NUMLIST - 1) < asize
    · rw [if_pos hbig]
      have hlast : listIdx asize = 24 := listIdx_last asize (by unfold NUMLIST at hbig; omega)
      rw [hlast] at hcc
      have : NUMLIST - 24 = 1 := rfl
      rw [this] at hcc
      simp only [List.range', chainsCat] at hcc
      obtain ⟨li, hli, hcc⟩ := bind_eq_ok hcc
      obtain ⟨lrest, hrest, hcc⟩ := bind_eq_ok hcc
      injection hrest with hr
      subst hr
      injection hcc with hl
      rw [List.append_nil] at hl
      rw [← hl]
      exact scanList_eq_chain s asize fuel _ li hli
    · rw [if_neg hbig]
      have hs : asize ≤ 2 ^ 24 := Nat.not_lt.mp hbig
      have hm : max 0 (listIdx asize) = listIdx asize := Nat.max_eq_right (Nat.zero_le _)
      have hcc2 : chainsCat s fuel
          (List.range' (max 0 (listIdx asize)) (25 - max 0 (listIdx asize))) = .ok l := by
        rw [hm]; exact hcc
      exact findLoop_eq s asize fuel hs 25 0 rfl l hcc2

/-- Forward construction of a successful monadic bind. -/
theorem bind_ok_intro {α β : Type} {x : Except AErr α} {k : α → Except AErr β} {a : α} {b : β}
    (hx : x = .ok a) (hk : k a = .ok b) : (x >>= k) = .ok b := by
  rw [hx, ok_bind]; exact hk

/-- For a pointer below `2^64`, `HDRP` is plain subtraction. -/
theorem HDRP_eq (x : Nat) (h1 : 4 ≤ x) (h2 : x < U64) : HDRP x = x - 4 := by
  have h2l : x < 18446744073709551616 := h2
  unfold HDRP U64
  omega

/-- Inversion of a successful word read. -/
theorem GETw_ok_inv {s : St} {a v : Nat} (h : GETw s a = .ok v) :
    inBnd s a ∧ alook s.mem a % U32 = v := by
  unfold GETw at h
  by_cases hb : inBnd s a
  · rw [if_pos hb] at h
    exact ⟨hb, Except.ok.inj h⟩
  · rw [if_neg hb] at h
    exact absurd h (fun hh => by injection hh)

/-- A word read at a legal address succeeds with the stored value. -/
theorem GETw_intro (s : St) (a : Nat) (hb : inBnd s a) :
    GETw s a = .ok (alook s.mem a % U32) := by
  unfold GETw; rw [if_pos hb]

/-- Inversion of a successful word store. -/
theorem PUTw_ok_inv {s t : St} {a v : Nat} (h : PUTw s a v = .ok t) :
    inBnd s a ∧ t = { s with mem := (a, v % U32) :: s.mem } := by
  unfold PUTw at h
  by_cases hb : inBnd s a
  · rw [if_pos hb] at h
    exact ⟨hb, (Except.ok.inj h).symm⟩
  · rw [if_neg hb] at h
    exact absurd h (fun hh => by injection hh)

/-- A word store at a legal address succeeds, prepending the entry. -/
theorem PUTw_intro (s : St) (a v : Nat) (hb : inBnd s a) :
    PUTw s a v = .ok { s with mem := (a, v % U32) :: s.mem } := by
  unfold PUTw; rw [if_pos hb]

theorem alook_cons_same (l : List (Nat × Nat)) (a w : Nat) :
    alook ((a, w) :: l) a = w := by
  simp [alook]

theorem alook_cons_ne (l : List (Nat × Nat)) (a b w : Nat) (h : b ≠ a) :
    alook ((a, w) :: l) b = alook l b := by
  simp only [alook]
  rw [if_neg h]

/-- Legality of a word access depends only on the heap top. -/
theorem inBnd_brk {s t : St} (hbrk : t.brk = s.brk) {a : Nat} (h : inBnd s a) :
    inBnd t a :=
  ⟨h.1, hbrk ▸ h.2.1, h.2.2⟩

/-- A word store changes none of the non-memory components. -/
theorem PUTw_core {s t : St} {a v : Nat} (h : PUTw s a v = .ok t) :
    t.brk = s.brk ∧ t.heap_listp = s.heap_listp ∧ t.maxHeap = s.maxHeap ∧
      t.freelists = s.freelists := by
  obtain ⟨-, ht⟩ := PUTw_ok_inv h
  subst ht
  exact ⟨rfl, rfl, rfl, rfl⟩

/-- A pointer store changes none of the non-memory components. -/
theorem PUTd_core {s t : St} {a v : Nat} (h : PUTd s a v = .ok t) :
    t.brk = s.brk ∧ t.heap_listp = s.heap_listp ∧ t.maxHeap = s.maxHeap ∧
      t.freelists = s.freelists := by
  unfold PUTd at h
  obtain ⟨s1, h1, h2⟩ := bind_eq_ok h
  have c1 := PUTw_core h1
  have c2 := PUTw_core h2
  exact ⟨c2.1.trans c1.1, c2.2.1.trans c1.2.1, c2.2.2.1.trans c1.2.2.1,
    c2.2.2.2.trans c1.2.2.2⟩

/-- The predecessor scan only stores into memory. -/
theorem removeScan_core {s : St} {bp su : Nat} :
    ∀ {f p : Nat} {t : St}, removeScan s bp su p f = .ok t →
      t.brk = s.brk ∧ t.heap_listp = s.heap_listp ∧ t.maxHeap = s.maxHeap ∧
        t.freelists = s.freelists := by
  intro f
  induction f with
  | zero => intro p t h; exact absurd h (fun hh => by injection hh)
  | succ f ih =>
    intro p t h
    simp only [removeScan] at h
    obtain ⟨sp, hsp, h⟩ := bind_eq_ok h
    by_cases he : sp = bp
    · rw [if_pos he] at h
      exact PUTd_core h
    · rw [if_neg he] at h
      exact ih h

/-- `freelist_remove` never moves the heap top, the prologue pointer
or the capacity. -/
theorem freelist_remove_core {fuel : Nat} {s : St} {bp : Nat} {t : St}
    (h : freelist_remove fuel s bp = .ok t) :
    t.brk = s.brk ∧ t.heap_listp = s.heap_listp ∧ t.maxHeap = s.maxHeap := by
  unfold freelist_remove at h
  obtain ⟨su, hsu, h⟩ := bind_eq_ok h
  obtain ⟨sh, hsh, h⟩ := bind_eq_ok h
  obtain ⟨hw, hhw, h⟩ := bind_eq_ok h
  by_cases h1 : bp = alook s.freelists (listIdx (GET_SIZE hw)) ∧ GET_ALLOC sh ≠ 0
  · rw [if_pos h1] at h
    have ht := Except.ok.inj h
    subst ht
    exact ⟨rfl, rfl, rfl⟩
  · rw [if_neg h1] at h
    by_cases h2 : bp = alook s.freelists (listIdx (GET_SIZE hw))
    · rw [if_pos h2] at h
      have ht := Except.ok.inj h
      subst ht
      exact ⟨rfl, rfl, rfl⟩
    · rw [if_neg h2] at h
      have c := removeScan_core h
      exact ⟨c.1, c.2.1, c.2.2.1⟩

/-- `GET_SIZE` of a free boundary tag is the packed size. -/
theorem GET_SIZE_PACK0 (t : Nat) (h : t % 8 = 0) : GET_SIZE (PACK t 0) = t := by
  unfold GET_SIZE PACK
  omega

/-- A pointer store at legal addresses succeeds, prepending the two
word entries. -/
theorem PUTd_intro (s : St) (a v : Nat) (h1 : inBnd s a) (h2 : inBnd s (a + 4)) :
    PUTd s a v =
      .ok { s with mem := (a + 4, v / U32 % U32) :: (a, v % U32 % U32) :: s.mem } := by
  unfold PUTd
  refine bind_ok_intro (PUTw_intro s a (v % U32) h1) ?_
  exact PUTw_intro _ (a + 4) (v / U32) (inBnd_brk rfl h2)

/-- Reading away from a single fresh store is unchanged. -/
theorem GETw_cons1_ne {s : St} {a1 w1 : Nat} (b : Nat) (hb1 : b ≠ a1) :
    GETw { s with mem := (a1, w1) :: s.mem } b = GETw s b := by
  have hiff : inBnd { s with mem := (a1, w1) :: s.mem } b ↔ inBnd s b :=
    ⟨fun h => ⟨h.1, h.2.1, h.2.2⟩, fun h => ⟨h.1, h.2.1, h.2.2⟩⟩
  unfold GETw
  by_cases hb : inBnd s b
  · rw [if_pos (hiff.mpr hb), if_pos hb]
    show Except.ok (alook ((a1, w1) :: s.mem) b % U32) = _
    rw [alook_cons_ne _ _ _ _ hb1]
  · rw [if_neg (fun hh => hb (hiff.mp hh)), if_neg hb]

/-- Reading away from two fresh stores is unchanged. -/
theorem GETw_cons2_ne {s : St} {a1 w1 a2 w2 : Nat} (b : Nat) (hb1 : b ≠ a1) (hb2 : b ≠ a2) :
    GETw { s with mem := (a2, w2) :: (a1, w1) :: s.mem } b = GETw s b := by
  have hiff : inBnd { s with mem := (a2, w2) :: (a1, w1) :: s.mem } b ↔ inBnd s b :=
    ⟨fun h => ⟨h.1, h.2.1, h.2.2⟩, fun h => ⟨h.1, h.2.1, h.2.2⟩⟩
  unfold GETw
  by_cases hb : inBnd s b
  · rw [if_pos (hiff.mpr hb), if_pos hb]
    show Except.ok (alook ((a2, w2) :: (a1, w1) :: s.mem) b % U32) = _
    rw [alook_cons_ne _ _ _ _ hb2, alook_cons_ne _ _ _ _ hb1]
  · rw [if_neg (fun hh => hb (hiff.mp hh)), if_neg hb]

/-- Reading the address of a fresh store yields the stored word. -/
theorem GETw_cons_same {s : St} {a1 w1 : Nat} (hin : inBnd s a1) :
    GETw { s with mem := (a1, w1) :: s.mem } a1 = .ok (w1 % U32) := by
  have h2 := GETw_intro { s with mem := (a1, w1) :: s.mem } a1
    (inBnd_brk rfl hin)
  rw [h2]
  show Except.ok (alook ((a1, w1) :: s.mem) a1 % U32) = _
  rw [alook_cons_same]

/-- What `freelist_insert` does to a legal block pointer: it pushes
`bp` at the head of the bucket of its stored size, writes only the
two successor words at `bp` and `bp + 4`, and moves nothing else. -/
theorem freelist_insert_spec {s : St} {bp w : Nat}
    (hw : GETw s (bp - 4) = .ok w) (h4 : 4 ≤ bp) (hU : bp < U64)
    (hin1 : inBnd s bp) (hin2 : inBnd s (bp + 4)) :
    ∃ t, freelist_insert s bp = .ok t ∧
      t.brk = s.brk ∧ t.heap_listp = s.heap_listp ∧ t.maxHeap = s.maxHeap ∧
      t.freelists = (listIdx (GET_SIZE w), bp) :: s.freelists ∧
      (∀ b, b ≠ bp → b ≠ bp + 4 → GETw t b = GETw s b) := by
  have hh : hdrw s bp = .ok w := by
    unfold hdrw
    rw [HDRP_eq bp h4 hU]
    exact hw
  refine ⟨{ s with
      mem := (bp + 4, alook s.freelists (listIdx (GET_SIZE w)) / U32 % U32) ::
        (bp, alook s.freelists (listIdx (GET_SIZE w)) % U32 % U32) :: s.mem,
      freelists := (listIdx (GET_SIZE w), bp) :: s.freelists }, ?_, rfl, rfl, rfl, rfl, ?_⟩
  · unfold freelist_insert
    refine bind_ok_intro hh ?_
    exact bind_ok_intro (PUTd_intro s bp _ hin1 hin2) rfl
  · intro b hb1 hb2
    exact GETw_cons2_ne b hb1 hb2

/-- Case "both neighbours allocated" of `coalesce`: the block is
inserted as-is, its boundary tags untouched. -/
theorem C6aux_case1 {s : St} {bp sz : Nat}
    (hhw : GETw s (bp - 4) = .ok (PACK sz 0))
    (hbf : GETw s (bp + sz - 8) = .ok (PACK sz 0))
    (hsz8 : sz % 8 = 0) (hsz16 : 16 ≤ sz)
    (hsm : bp + sz < U32) :
    ∃ t, coalesce_case1 s bp = .ok (bp, t) ∧
      GETw t (bp - 4) = .ok (PACK sz 0) ∧
      GETw t (bp + sz - 8) = .ok (PACK sz 0) ∧
      alook t.freelists (listIdx sz) = bp := by
  have h32 : U32 = 4294967296 := rfl
  have h64 : U64 = 18446744073709551616 := rfl
  obtain ⟨hin4, -⟩ := GETw_ok_inv hhw
  obtain ⟨hinf, -⟩ := GETw_ok_inv hbf
  have ha1 := hin4.1
  have ha2 := hin4.2.1
  have ha3 := hin4.2.2
  have hb2 := hinf.2.1
  have hinbp : inBnd s bp := ⟨by omega, by omega, by omega⟩
  have hinbp4 : inBnd s (bp + 4) := ⟨by omega, by omega, by omega⟩
  obtain ⟨t, hins, -, -, -, hfl, hpres⟩ :=
    freelist_insert_spec hhw (by omega) (by omega) hinbp hinbp4
  refine ⟨t, ?_, ?_, ?_, ?_⟩
  · unfold coalesce_case1
    exact bind_ok_intro hins rfl
  · rw [hpres (bp - 4) (by omega) (by omega)]
    exact hhw
  · rw [hpres (bp + sz - 8) (by omega) (by omega)]
    exact hbf
  · rw [hfl, GET_SIZE_PACK0 sz hsz8]
    exact alook_cons_same _ _ _

/-- Case "only the next block free" of `coalesce`: after unlinking
the next block, the summed size is written at the block's header and
at the far footer, and the block is inserted in the summed-size
bucket. -/
theorem C6aux_case2 {fuel : Nat} {s s1 : St} {bp sz nh nsz : Nat}
    (hhw : GETw s (bp - 4) = .ok (PACK sz 0))
    (hrm : freelist_remove fuel s (bp + sz) = .ok s1)
    (hhw1 : GETw s1 (bp - 4) = .ok (PACK sz 0))
    (hnh1 : GETw s1 (bp + sz - 4) = .ok nh)
    (hnsz : GET_SIZE nh = nsz)
    (hinf : inBnd s1 (bp + sz + nsz - 8))
    (hsz8 : sz % 8 = 0) (hsz16 : 16 ≤ sz) (hnsz16 : 16 ≤ nsz)
    (hsm : bp + sz + nsz < U32) :
    ∃ t, coalesce_case2 fuel s bp sz = .ok (bp, t) ∧
      GETw t (bp - 4) = .ok (PACK (sz + nsz) 0) ∧
      GETw t (bp + sz + nsz - 8) = .ok (PACK (sz + nsz) 0) ∧
      alook t.freelists (listIdx (sz + nsz)) = bp := by
  subst hnsz
  have h32 : U32 = 4294967296 := rfl
  have h64 : U64 = 18446744073709551616 := rfl
  obtain ⟨hin4, -⟩ := GETw_ok_inv hhw
  obtain ⟨hin41, -⟩ := GETw_ok_inv hhw1
  obtain ⟨hinn, -⟩ := GETw_ok_inv hnh1
  have ha1 := hin4.1
  have hq1 := hin41.1
  have hq2 := hin41.2.1
  have hq3 := hin41.2.2
  have hn2 := hinn.2.1
  have hf1 := hinf.1
  have hf2 := hinf.2.1
  have hnsz8 : GET_SIZE nh % 8 = 0 := by unfold GET_SIZE; omega
  have hXlt : PACK (sz + GET_SIZE nh) 0 < U32 := by unfold PACK; omega
  have hmod : PACK (sz + GET_SIZE nh) 0 % U32 % U32 = PACK (sz + GET_SIZE nh) 0 := by
    rw [Nat.mod_eq_of_lt hXlt, Nat.mod_eq_of_lt hXlt]
  have e1 : next_blkp s bp = .ok (bp + sz) := by
    unfold next_blkp hdrw
    rw [HDRP_eq bp (by omega) (by omega)]
    refine bind_ok_intro hhw ?_
    rw [GET_SIZE_PACK0 sz hsz8]
  have e3 : next_blkp s1 bp = .ok (bp + sz) := by
    unfold next_blkp hdrw
    rw [HDRP_eq bp (by omega) (by omega)]
    refine bind_ok_intro hhw1 ?_
    rw [GET_SIZE_PACK0 sz hsz8]
  have e4 : hdrw s1 (bp + sz) = .ok nh := by
    unfold hdrw
    rw [HDRP_eq (bp + sz) (by omega) (by omega)]
    exact hnh1
  have e5 : PUTw s1 (HDRP bp) (PACK (sz + GET_SIZE nh) 0) =
      .ok { s1 with mem := (bp - 4, PACK (sz + GET_SIZE nh) 0 % U32) :: s1.mem } := by
    rw [HDRP_eq bp (by omega) (by omega)]
    exact PUTw_intro s1 (bp - 4) _ hin41
  have e6 : ftrpA { s1 with mem := (bp - 4, PACK (sz + GET_SIZE nh) 0 % U32) :: s1.mem } bp =
      .ok (bp + sz + GET_SIZE nh - 8) := by
    unfold ftrpA hdrw DSIZE
    rw [HDRP_eq bp (by omega) (by omega)]
    refine bind_ok_intro
      (@GETw_cons_same s1 (bp - 4) (PACK (sz + GET_SIZE nh) 0 % U32) hin41) ?_
    rw [hmod, GET_SIZE_PACK0 _ (by omega : (sz + GET_SIZE nh) % 8 = 0)]
    exact congrArg Except.ok (by omega)
  have hinf2 : inBnd { s1 with mem := (bp - 4, PACK (sz + GET_SIZE nh) 0 % U32) :: s1.mem }
      (bp + sz + GET_SIZE nh - 8) := inBnd_brk rfl hinf
  have e7 : PUTw { s1 with mem := (bp - 4, PACK (sz + GET_SIZE nh) 0 % U32) :: s1.mem }
      (bp + sz + GET_SIZE nh - 8) (PACK (sz + GET_SIZE nh) 0) =
      .ok { s1 with mem := (bp + sz + GET_SIZE nh - 8, PACK (sz + GET_SIZE nh) 0 % U32) ::
        (bp - 4, PACK (sz + GET_SIZE nh) 0 % U32) :: s1.mem } :=
    PUTw_intro _ _ _ hinf2
  have hh3 : GETw { s1 with mem := (bp + sz + GET_SIZE nh - 8, PACK (sz + GET_SIZE nh) 0 % U32) ::
      (bp - 4, PACK (sz + GET_SIZE nh) 0 % U32) :: s1.mem } (bp - 4) =
      .ok (PACK (sz + GET_SIZE nh) 0) := by
    have t1 : GETw { s1 with mem := (bp + sz + GET_SIZE nh - 8, PACK (sz + GET_SIZE nh) 0 % U32) ::
        (bp - 4, PACK (sz + GET_SIZE nh) 0 % U32) :: s1.mem } (bp - 4) =
        GETw { s1 with mem := (bp - 4, PACK (sz + GET_SIZE nh) 0 % U32) :: s1.mem } (bp - 4) :=
      @GETw_cons1_ne { s1 with mem := (bp - 4, PACK (sz + GET_SIZE nh) 0 % U32) :: s1.mem }
        (bp + sz + GET_SIZE nh - 8) (PACK (sz + GET_SIZE nh) 0 % U32) (bp - 4) (by omega)
    have t2 := @GETw_cons_same s1 (bp - 4) (PACK (sz + GET_SIZE nh) 0 % U32) hin41
    exact (t1.trans t2).trans (congrArg Except.ok hmod)
  have hinbp : inBnd s1 bp := ⟨by omega, by omega, by omega⟩
  have hinbp4 : inBnd s1 (bp + 4) := ⟨by omega, by omega, by omega⟩
  obtain ⟨t, hins, -, -, -, hfl, hpres⟩ :=
    freelist_insert_spec hh3 (by omega) (by omega) (inBnd_brk rfl hinbp) (inBnd_brk rfl hinbp4)
  refine ⟨t, ?_, ?_, ?_, ?_⟩
  · unfold coalesce_case2
    refine bind_ok_intro e1 ?_
    refine bind_ok_intro hrm ?_
    refine bind_ok_intro e3 ?_
    refine bind_ok_intro e4 ?_
    refine bind_ok_intro e5 ?_
    refine bind_ok_intro e6 ?_
    refine bind_ok_intro e7 ?_
    refine bind_ok_intro hins ?_
    rfl
  · rw [hpres (bp - 4) (by omega) (by omega)]
    exact hh3
  · rw [hpres (bp + sz + GET_SIZE nh - 8) (by omega) (by omega)]
    exact (@GETw_cons_same { s1 with mem := (bp - 4, PACK (sz + GET_SIZE nh) 0 % U32) :: s1.mem }
      (bp + sz + GET_SIZE nh - 8) (PACK (sz + GET_SIZE nh) 0 % U32) hinf2).trans
      (congrArg Except.ok hmod)
  · rw [hfl, GET_SIZE_PACK0 _ (by omega : (sz + GET_SIZE nh) % 8 = 0)]
    exact alook_cons_same _ _ _

/-- Case "only the previous block free" of `coalesce`: after
unlinking the previous block, the summed size is written at the
block's footer and the previous block's header, and the previous
block pointer is inserted in the summed-size bucket. -/
theorem C6aux_case3 {fuel : Nat} {s s1 : St} {bp sz pf ph psz : Nat}
    (hpf : GETw s (bp - 8) = .ok pf)
    (hpsz : GET_SIZE pf = psz)
    (hrm : freelist_remove fuel s (bp - psz) = .ok s1)
    (hpf1 : GETw s1 (bp - 8) = .ok pf)
    (hph1 : GETw s1 (bp - psz - 4) = .ok ph)
    (hphs : GET_SIZE ph = psz)
    (hhw1 : GETw s1 (bp - 4) = .ok (PACK sz 0))
    (hinf : inBnd s1 (bp + sz - 8))
    (hsz8 : sz % 8 = 0) (hsz16 : 16 ≤ sz) (hpsz16 : 16 ≤ psz)
    (hlo : psz + 12 ≤ bp)
    (hsm : bp + sz < U32) :
    ∃ t, coalesce_case3 fuel s bp sz = .ok (bp - psz, t) ∧
      GETw t (bp - psz - 4) = .ok (PACK (sz + psz) 0) ∧
      GETw t (bp + sz - 8) = .ok (PACK (sz + psz) 0) ∧
      alook t.freelists (listIdx (sz + psz)) = bp - psz := by
  subst hphs
  have h32 : U32 = 4294967296 := rfl
  have h64 : U64 = 18446744073709551616 := rfl
  obtain ⟨hinp, -⟩ := GETw_ok_inv hpf1
  obtain ⟨hinph, -⟩ := GETw_ok_inv hph1
  obtain ⟨hin41, -⟩ := GETw_ok_inv hhw1
  have hp1 := hinp.1
  have hp2 := hinp.2.1
  have hq1 := hinph.1
  have hq2 := hinph.2.1
  have hq3 := hinph.2.2
  have hr1 := hin41.1
  have hr3 := hin41.2.2
  have hf2 := hinf.2.1
  have hpsz8 : GET_SIZE ph % 8 = 0 := by unfold GET_SIZE; omega
  have hXlt : PACK (sz + GET_SIZE ph) 0 < U32 := by unfold PACK; omega
  have hmod : PACK (sz + GET_SIZE ph) 0 % U32 % U32 = PACK (sz + GET_SIZE ph) 0 := by
    rw [Nat.mod_eq_of_lt hXlt, Nat.mod_eq_of_lt hXlt]
  have e1 : prev_blkp s bp = .ok (bp - GET_SIZE ph) := by
    unfold prev_blkp DSIZE
    refine bind_ok_intro hpf ?_
    rw [hpsz]
  have e2 : prev_blkp s1 bp = .ok (bp - GET_SIZE ph) := by
    unfold prev_blkp DSIZE
    refine bind_ok_intro hpf1 ?_
    rw [hpsz]
  have e3 : hdrw s1 (bp - GET_SIZE ph) = .ok ph := by
    unfold hdrw
    rw [HDRP_eq (bp - GET_SIZE ph) (by omega) (by omega)]
    exact hph1
  have e4 : ftrpA s1 bp = .ok (bp + sz - 8) := by
    unfold ftrpA hdrw DSIZE
    rw [HDRP_eq bp (by omega) (by omega)]
    refine bind_ok_intro hhw1 ?_
    rw [GET_SIZE_PACK0 sz hsz8]
  have e5 : PUTw s1 (bp + sz - 8) (PACK (sz + GET_SIZE ph) 0) =
      .ok { s1 with mem := (bp + sz - 8, PACK (sz + GET_SIZE ph) 0 % U32) :: s1.mem } :=
    PUTw_intro s1 _ _ hinf
  have e6 : prev_blkp { s1 with mem := (bp + sz - 8, PACK (sz + GET_SIZE ph) 0 % U32) :: s1.mem }
      bp = .ok (bp - GET_SIZE ph) := by
    unfold prev_blkp DSIZE
    refine bind_ok_intro ((@GETw_cons1_ne s1 (bp + sz - 8) (PACK (sz + GET_SIZE ph) 0 % U32)
      (bp - 8) (by omega)).trans hpf1) ?_
    rw [hpsz]
  have e7 : PUTw { s1 with mem := (bp + sz - 8, PACK (sz + GET_SIZE ph) 0 % U32) :: s1.mem }
      (HDRP (bp - GET_SIZE ph)) (PACK (sz + GET_SIZE ph) 0) =
      .ok { s1 with mem := (bp - GET_SIZE ph - 4, PACK (sz + GET_SIZE ph) 0 % U32) ::
        (bp + sz - 8, PACK (sz + GET_SIZE ph) 0 % U32) :: s1.mem } := by
    rw [HDRP_eq (bp - GET_SIZE ph) (by omega) (by omega)]
    exact PUTw_intro _ _ _ (inBnd_brk rfl hinph)
  have e8 : prev_blkp { s1 with mem := (bp - GET_SIZE ph - 4, PACK (sz + GET_SIZE ph) 0 % U32) ::
      (bp + sz - 8, PACK (sz + GET_SIZE ph) 0 % U32) :: s1.mem } bp = .ok (bp - GET_SIZE ph) := by
    unfold prev_blkp DSIZE
    refine bind_ok_intro ((@GETw_cons2_ne s1 (bp + sz - 8) (PACK (sz + GET_SIZE ph) 0 % U32)
      (bp - GET_SIZE ph - 4) (PACK (sz + GET_SIZE ph) 0 % U32) (bp - 8)
      (by omega) (by omega)).trans hpf1) ?_
    rw [hpsz]
  have hh3 : GETw { s1 with mem := (bp - GET_SIZE ph - 4, PACK (sz + GET_SIZE ph) 0 % U32) ::
      (bp + sz - 8, PACK (sz + GET_SIZE ph) 0 % U32) :: s1.mem } (bp - GET_SIZE ph - 4) =
      .ok (PACK (sz + GET_SIZE ph) 0) :=
    (@GETw_cons_same { s1 with mem := (bp + sz - 8, PACK (sz + GET_SIZE ph) 0 % U32) :: s1.mem }
      (bp - GET_SIZE ph - 4) (PACK (sz + GET_SIZE ph) 0 % U32)
      (inBnd_brk rfl hinph)).trans (congrArg Except.ok hmod)
  have hinpb : inBnd s1 (bp - GET_SIZE ph) := ⟨by omega, by omega, by omega⟩
  have hinpb4 : inBnd s1 (bp - GET_SIZE ph + 4) := ⟨by omega, by omega, by omega⟩
  obtain ⟨t, hins, -, -, -, hfl, hpres⟩ :=
    freelist_insert_spec hh3 (by omega) (by omega) (inBnd_brk rfl hinpb) (inBnd_brk rfl hinpb4)
  refine ⟨t, ?_, ?_, ?_, ?_⟩
  · unfold coalesce_case3
    refine bind_ok_intro e1 ?_
    refine bind_ok_intro hrm ?_
    refine bind_ok_intro e2 ?_
    refine bind_ok_intro e3 ?_
    refine bind_ok_intro e4 ?_
    refine bind_ok_intro e5 ?_
    refine bind_ok_intro e6 ?_
    refine bind_ok_intro e7 ?_
    refine bind_ok_intro e8 ?_
    refine bind_ok_intro hins ?_
    rfl
  · rw [hpres (bp - GET_SIZE ph - 4) (by omega) (by omega)]
    exact hh3
  · rw [hpres (bp + sz - 8) (by omega) (by omega)]
    exact ((@GETw_cons1_ne { s1 with mem := (bp + sz - 8, PACK (sz + GET_SIZE ph) 0 % U32) :: s1.mem }
      (bp - GET_SIZE ph - 4) (PACK (sz + GET_SIZE ph) 0 % U32) (bp + sz - 8) (by omega)).trans
      (@GETw_cons_same s1 (bp + sz - 8) (PACK (sz + GET_SIZE ph) 0 % U32) hinf)).trans
      (congrArg Except.ok hmod)
  · rw [hfl, GET_SIZE_PACK0 _ (by omega : (sz + GET_SIZE ph) % 8 = 0)]
    exact alook_cons_same _ _ _

/-- Case "both neighbours free" of `coalesce`: after unlinking both
neighbours, the three-way summed size is written at the previous
block's header and the next block's footer, and the previous block
pointer is inserted in the summed-size bucket. -/
theorem C6aux_case4 {fuel : Nat} {s s1 s2 : St} {bp sz pf ph nh nf psz nsz : Nat}
    (hpsz : GET_SIZE pf = psz)
    (hhw : GETw s (bp - 4) = .ok (PACK sz 0))
    (hrm1 : freelist_remove fuel s (bp + sz) = .ok s1)
    (hpf1 : GETw s1 (bp - 8) = .ok pf)
    (hrm2 : freelist_remove fuel s1 (bp - psz) = .ok s2)
    (hpf2 : GETw s2 (bp - 8) = .ok pf)
    (hph2 : GETw s2 (bp - psz - 4) = .ok ph)
    (hphs : GET_SIZE ph = psz)
    (hhw2 : GETw s2 (bp - 4) = .ok (PACK sz 0))
    (hnh2 : GETw s2 (bp + sz - 4) = .ok nh)
    (hnsz : GET_SIZE nh = nsz)
    (hnf2 : GETw s2 (bp + sz + nsz - 8) = .ok nf)
    (hnfs : GET_SIZE nf = nsz)
    (hsz8 : sz % 8 = 0) (hsz16 : 16 ≤ sz) (hpsz16 : 16 ≤ psz) (hnsz16 : 16 ≤ nsz)
    (hlo : psz + 12 ≤ bp)
    (hsm : bp + sz + nsz < U32) :
    ∃ t, coalesce_case4 fuel s bp sz = .ok (bp - psz, t) ∧
      GETw t (bp - psz - 4) = .ok (PACK (sz + (psz + nsz)) 0) ∧
      GETw t (bp + sz + nsz - 8) = .ok (PACK (sz + (psz + nsz)) 0) ∧
      alook t.freelists (listIdx (sz + (psz + nsz))) = bp - psz := by
  subst hphs
  subst hnsz
  have h32 : U32 = 4294967296 := rfl
  have h64 : U64 = 18446744073709551616 := rfl
  obtain ⟨hin4, -⟩ := GETw_ok_inv hhw
  obtain ⟨hinp, -⟩ := GETw_ok_inv hpf2
  obtain ⟨hinph2, -⟩ := GETw_ok_inv hph2
  obtain ⟨hin42, -⟩ := GETw_ok_inv hhw2
  obtain ⟨hinn, -⟩ := GETw_ok_inv hnh2
  obtain ⟨hinnf, -⟩ := GETw_ok_inv hnf2
  have ha1 := hin4.1
  have hp1 := hinp.1
  have hp2 := hinp.2.1
  have hq1 := hinph2.1
  have hq2 := hinph2.2.1
  have hq3 := hinph2.2.2
  have hr1 := hin42.1
  have hr3 := hin42.2.2
  have hn2 := hinn.2.1
  have hpsz8 : GET_SIZE ph % 8 = 0 := by unfold GET_SIZE; omega
  have hnfs8 : GET_SIZE nf % 8 = 0 := by unfold GET_SIZE; omega
  have hXlt : PACK (sz + (GET_SIZE ph + GET_SIZE nf)) 0 < U32 := by unfold PACK; omega
  have hmod : PACK (sz + (GET_SIZE ph + GET_SIZE nf)) 0 % U32 % U32 =
      PACK (sz + (GET_SIZE ph + GET_SIZE nf)) 0 := by
    rw [Nat.mod_eq_of_lt hXlt, Nat.mod_eq_of_lt hXlt]
  have e1 : next_blkp s bp = .ok (bp + sz) := by
    unfold next_blkp hdrw
    rw [HDRP_eq bp (by omega) (by omega)]
    refine bind_ok_intro hhw ?_
    rw [GET_SIZE_PACK0 sz hsz8]
  have e2 : prev_blkp s1 bp = .ok (bp - GET_SIZE ph) := by
    unfold prev_blkp DSIZE
    refine bind_ok_intro hpf1 ?_
    rw [hpsz]
  have e3 : prev_blkp s2 bp = .ok (bp - GET_SIZE ph) := by
    unfold prev_blkp DSIZE
    refine bind_ok_intro hpf2 ?_
    rw [hpsz]
  have e4 : hdrw s2 (bp - GET_SIZE ph) = .ok ph := by
    unfold hdrw
    rw [HDRP_eq (bp - GET_SIZE ph) (by omega) (by omega)]
    exact hph2
  have e5 : next_blkp s2 bp = .ok (bp + sz) := by
    unfold next_blkp hdrw
    rw [HDRP_eq bp (by omega) (by omega)]
    refine bind_ok_intro hhw2 ?_
    rw [GET_SIZE_PACK0 sz hsz8]
  have e6 : ftrpA s2 (bp + sz) = .ok (bp + sz + GET_SIZE nh - 8) := by
    unfold ftrpA hdrw DSIZE
    rw [HDRP_eq (bp + sz) (by omega) (by omega)]
    exact bind_ok_intro hnh2 rfl
  have e9 : PUTw s2 (HDRP (bp - GET_SIZE ph)) (PACK (sz + (GET_SIZE ph + GET_SIZE nf)) 0) =
      .ok { s2 with mem := (bp - GET_SIZE ph - 4,
        PACK (sz + (GET_SIZE ph + GET_SIZE nf)) 0 % U32) :: s2.mem } := by
    rw [HDRP_eq (bp - GET_SIZE ph) (by omega) (by omega)]
    exact PUTw_intro s2 _ _ hinph2
  have e10 : next_blkp { s2 with mem := (bp - GET_SIZE ph - 4,
      PACK (sz + (GET_SIZE ph + GET_SIZE nf)) 0 % U32) :: s2.mem } bp = .ok (bp + sz) := by
    unfold next_blkp hdrw
    rw [HDRP_eq bp (by omega) (by omega)]
    refine bind_ok_intro ((@GETw_cons1_ne s2 (bp - GET_SIZE ph - 4)
      (PACK (sz + (GET_SIZE ph + GET_SIZE nf)) 0 % U32) (bp - 4) (by omega)).trans hhw2) ?_
    rw [GET_SIZE_PACK0 sz hsz8]
  have e11 : ftrpA { s2 with mem := (bp - GET_SIZE ph - 4,
      PACK (sz + (GET_SIZE ph + GET_SIZE nf)) 0 % U32) :: s2.mem } (bp + sz) =
      .ok (bp + sz + GET_SIZE nh - 8) := by
    unfold ftrpA hdrw DSIZE
    rw [HDRP_eq (bp + sz) (by omega) (by omega)]
    exact bind_ok_intro ((@GETw_cons1_ne s2 (bp - GET_SIZE ph - 4)
      (PACK (sz + (GET_SIZE ph + GET_SIZE nf)) 0 % U32) (bp + sz - 4) (by omega)).trans hnh2) rfl
  have e12 : PUTw { s2 with mem := (bp - GET_SIZE ph - 4,
      PACK (sz + (GET_SIZE ph + GET_SIZE nf)) 0 % U32) :: s2.mem }
      (bp + sz + GET_SIZE nh - 8) (PACK (sz + (GET_SIZE ph + GET_SIZE nf)) 0) =
      .ok { s2 with mem := (bp + sz + GET_SIZE nh - 8,
        PACK (sz + (GET_SIZE ph + GET_SIZE nf)) 0 % U32) ::
        (bp - GET_SIZE ph - 4, PACK (sz + (GET_SIZE ph + GET_SIZE nf)) 0 % U32) :: s2.mem } :=
    PUTw_intro _ _ _ (inBnd_brk rfl hinnf)
  have e13 : prev_blkp { s2 with mem := (bp + sz + GET_SIZE nh - 8,
      PACK (sz + (GET_SIZE ph + GET_SIZE nf)) 0 % U32) ::
      (bp - GET_SIZE ph - 4, PACK (sz + (GET_SIZE ph + GET_SIZE nf)) 0 % U32) :: s2.mem } bp =
      .ok (bp - GET_SIZE ph) := by
    unfold prev_blkp DSIZE
    refine bind_ok_intro ((@GETw_cons2_ne s2 (bp - GET_SIZE ph - 4)
      (PACK (sz + (GET_SIZE ph + GET_SIZE nf)) 0 % U32) (bp + sz + GET_SIZE nh - 8)
      (PACK (sz + (GET_SIZE ph + GET_SIZE nf)) 0 % U32) (bp - 8)
      (by omega) (by omega)).trans hpf2) ?_
    rw [hpsz]
  have hh4 : GETw { s2 with mem := (bp + sz + GET_SIZE nh - 8,
      PACK (sz + (GET_SIZE ph + GET_SIZE nf)) 0 % U32) ::
      (bp - GET_SIZE ph - 4, PACK (sz + (GET_SIZE ph + GET_SIZE nf)) 0 % U32) :: s2.mem }
      (bp - GET_SIZE ph - 4) = .ok (PACK (sz + (GET_SIZE ph + GET_SIZE nf)) 0) :=
    ((@GETw_cons1_ne { s2 with mem := (bp - GET_SIZE ph - 4,
      PACK (sz + (GET_SIZE ph + GET_SIZE nf)) 0 % U32) :: s2.mem }
      (bp + sz + GET_SIZE nh - 8) (PACK (sz + (GET_SIZE ph + GET_SIZE nf)) 0 % U32)
      (bp - GET_SIZE ph - 4) (by omega)).trans
      (@GETw_cons_same s2 (bp - GET_SIZE ph - 4)
        (PACK (sz + (GET_SIZE ph + GET_SIZE nf)) 0 % U32) hinph2)).trans
      (congrArg Except.ok hmod)
  have hinpb : inBnd s2 (bp - GET_SIZE ph) := ⟨by omega, by omega, by omega⟩
  have hinpb4 : inBnd s2 (bp - GET_SIZE ph + 4) := ⟨by omega, by omega, by omega⟩
  obtain ⟨t, hins, -, -, -, hfl, hpres⟩ :=
    freelist_insert_spec hh4 (by omega) (by omega) (inBnd_brk rfl hinpb) (inBnd_brk rfl hinpb4)
  refine ⟨t, ?_, ?_, ?_, ?_⟩
  · unfold coalesce_case4
    refine bind_ok_intro e1 ?_
    refine bind_ok_intro hrm1 ?_
    refine bind_ok_intro e2 ?_
    refine bind_ok_intro hrm2 ?_
    refine bind_ok_intro e3 ?_
    refine bind_ok_intro e4 ?_
    refine bind_ok_intro e5 ?_
    refine bind_ok_intro e6 ?_
    refine bind_ok_intro hnf2 ?_
    refine bind_ok_intro e3 ?_
    refine bind_ok_intro e9 ?_
    refine bind_ok_intro e10 ?_
    refine bind_ok_intro e11 ?_
    refine bind_ok_intro e12 ?_
    refine bind_ok_intro e13 ?_
    refine bind_ok_intro hins ?_
    rfl
  · rw [hpres (bp - GET_SIZE ph - 4) (by omega) (by omega)]
    exact hh4.trans (congrArg Except.ok (by rw [hnfs]))
  · rw [hpres (bp + sz + GET_SIZE nh - 8) (by omega) (by omega)]
    exact (@GETw_cons_same { s2 with mem := (bp - GET_SIZE ph - 4,
      PACK (sz + (GET_SIZE ph + GET_SIZE nf)) 0 % U32) :: s2.mem }
      (bp + sz + GET_SIZE nh - 8) (PACK (sz + (GET_SIZE ph + GET_SIZE nf)) 0 % U32)
      (inBnd_brk rfl hinnf)).trans
      (congrArg Except.ok (hmod.trans (by rw [hnfs])))
  · rw [show sz + (GET_SIZE ph + GET_SIZE nh) = sz + (GET_SIZE ph + GET_SIZE nf) from
      by rw [hnfs]]
    rw [hfl, GET_SIZE_PACK0 _ (by omega : (sz + (GET_SIZE ph + GET_SIZE nf)) % 8 = 0)]
    exact alook_cons_same _ _ _

/-- C6: to coalesce a freshly freed block at `bp` (boundary tags
`PACK sz 0` already written), `coalesce` decides among its four cases
from exactly two words — the preceding block's footer `pf` and the
following block's header `nh`.  Both neighbours allocated: the block
is inserted as-is.  Only next free: the next block is removed from
its bucket (hypothesis bundle `hc2` supplies the removal and the
words it preserves) and tags `PACK (sz + nsz) 0` span from `bp`.
Only previous free: the previous block is removed and tags
`PACK (sz + psz) 0` span from the previous block's start `bp - psz`.
Both free: both are removed and tags `PACK (sz + (psz + nsz)) 0` span
from the previous block's start to the next block's end.  In every
case the merged size is the exact sum of the merged blocks' sizes,
the boundary tags of the result read back as that sum, and the result
pointer sits at the head of the bucket `listIdx` of that sum. -/
theorem C6_coalesce_cases {fuel : Nat} {s : St} {bp pf ph sz nh psz nsz : Nat}
    (hpf : GETw s (bp - 8) = .ok pf)
    (hpsz : GET_SIZE pf = psz)
    (hph : GETw s (bp - psz - 4) = .ok ph)
    (hphs : GET_SIZE ph = psz)
    (hhw : GETw s (bp - 4) = .ok (PACK sz 0))
    (hbf : GETw s (bp + sz - 8) = .ok (PACK sz 0))
    (hnh : GETw s (bp + sz - 4) = .ok nh)
    (hnsz : GET_SIZE nh = nsz)
    (hsz8 : sz % 8 = 0) (hsz16 : 16 ≤ sz)
    (hlo : psz + 12 ≤ bp)
    (hsm : bp + sz + nsz < U32)
    (hc2 : GET_ALLOC pf ≠ 0 → GET_ALLOC nh = 0 →
      ∃ s1, freelist_remove fuel s (bp + sz) = .ok s1 ∧
        GETw s1 (bp - 4) = .ok (PACK sz 0) ∧
        GETw s1 (bp + sz - 4) = .ok nh ∧
        inBnd s1 (bp + sz + nsz - 8) ∧ 16 ≤ nsz)
    (hc3 : GET_ALLOC pf = 0 → GET_ALLOC nh ≠ 0 →
      ∃ s1, freelist_remove fuel s (bp - psz) = .ok s1 ∧
        GETw s1 (bp - 8) = .ok pf ∧
        GETw s1 (bp - psz - 4) = .ok ph ∧
        GETw s1 (bp - 4) = .ok (PACK sz 0) ∧
        inBnd s1 (bp + sz - 8) ∧ 16 ≤ psz)
    (hc4 : GET_ALLOC pf = 0 → GET_ALLOC nh = 0 →
      ∃ s1 s2 nf, freelist_remove fuel s (bp + sz) = .ok s1 ∧
        GETw s1 (bp - 8) = .ok pf ∧
        freelist_remove fuel s1 (bp - psz) = .ok s2 ∧
        GETw s2 (bp - 8) = .ok pf ∧
        GETw s2 (bp - psz - 4) = .ok ph ∧
        GETw s2 (bp - 4) = .ok (PACK sz 0) ∧
        GETw s2 (bp + sz - 4) = .ok nh ∧
        GETw s2 (bp + sz + nsz - 8) = .ok nf ∧
        GET_SIZE nf = nsz ∧ 16 ≤ psz ∧ 16 ≤ nsz) :
    (GET_ALLOC pf ≠ 0 → GET_ALLOC nh ≠ 0 →
      ∃ t, coalesce fuel s bp = .ok (bp, t) ∧
        GETw t (bp - 4) = .ok (PACK sz 0) ∧
        GETw t (bp + sz - 8) = .ok (PACK sz 0) ∧
        alook t.freelists (listIdx sz) = bp) ∧
    (GET_ALLOC pf ≠ 0 → GET_ALLOC nh = 0 →
      ∃ t, coalesce fuel s bp = .ok (bp, t) ∧
        GETw t (bp - 4) = .ok (PACK (sz + nsz) 0) ∧
        GETw t (bp + sz + nsz - 8) = .ok (PACK (sz + nsz) 0) ∧
        alook t.freelists (listIdx (sz + nsz)) = bp) ∧
    (GET_ALLOC pf = 0 → GET_ALLOC nh ≠ 0 →
      ∃ t, coalesce fuel s bp = .ok (bp - psz, t) ∧
        GETw t (bp - psz - 4) = .ok (PACK (sz + psz) 0) ∧
        GETw t (bp + sz - 8) = .ok (PACK (sz + psz) 0) ∧
        alook t.freelists (listIdx (sz + psz)) = bp - psz) ∧
    (GET_ALLOC pf = 0 → GET_ALLOC nh = 0 →
      ∃ t, coalesce fuel s bp = .ok (bp - psz, t) ∧
        GETw t (bp - psz - 4) = .ok (PACK (sz + (psz + nsz)) 0) ∧
        GETw t (bp + sz + nsz - 8) = .ok (PACK (sz + (psz + nsz)) 0) ∧
        alook t.freelists (listIdx (sz + (psz + nsz))) = bp - psz) := by
  have h32 : U32 = 4294967296 := rfl
  have h64 : U64 = 18446744073709551616 := rfl
  obtain ⟨hin4, -⟩ := GETw_ok_inv hhw
  have ha1 := hin4.1
  have e_pb : prev_blkp s bp = .ok (bp - psz) := by
    unfold prev_blkp DSIZE
    refine bind_ok_intro hpf ?_
    rw [hpsz]
  have e_pfa : ftrpA s (bp - psz) = .ok (bp - 8) := by
    unfold ftrpA hdrw DSIZE
    rw [HDRP_eq (bp - psz) (by omega) (by omega)]
    refine bind_ok_intro hph ?_
    exact congrArg Except.ok (by rw [hphs]; omega)
  have e_nb : next_blkp s bp = .ok (bp + sz) := by
    unfold next_blkp hdrw
    rw [HDRP_eq bp (by omega) (by omega)]
    refine bind_ok_intro hhw ?_
    rw [GET_SIZE_PACK0 sz hsz8]
  have e_nh : hdrw s (bp + sz) = .ok nh := by
    unfold hdrw
    rw [HDRP_eq (bp + sz) (by omega) (by omega)]
    exact hnh
  have e_hw : hdrw s bp = .ok (PACK sz 0) := by
    unfold hdrw
    rw [HDRP_eq bp (by omega) (by omega)]
    exact hhw
  have hch : ∀ p : Nat × St,
      (if GET_ALLOC pf ≠ 0 ∧ GET_ALLOC nh ≠ 0 then coalesce_case1 s bp
       else if GET_ALLOC pf ≠ 0 ∧ GET_ALLOC nh = 0 then
         coalesce_case2 fuel s bp (GET_SIZE (PACK sz 0))
       else if GET_ALLOC pf = 0 ∧ GET_ALLOC nh ≠ 0 then
         coalesce_case3 fuel s bp (GET_SIZE (PACK sz 0))
       else coalesce_case4 fuel s bp (GET_SIZE (PACK sz 0))) = .ok p →
      coalesce fuel s bp = .ok p := by
    intro p hr
    unfold coalesce
    refine bind_ok_intro e_pb ?_
    refine bind_ok_intro e_pfa ?_
    refine bind_ok_intro hpf ?_
    refine bind_ok_intro e_nb ?_
    refine bind_ok_intro e_nh ?_
    refine bind_ok_intro e_hw ?_
    exact hr
  refine ⟨?_, ?_, ?_, ?_⟩
  · intro hp hn
    obtain ⟨t, hc, r1, r2, r3⟩ := C6aux_case1 hhw hbf hsz8 hsz16 (by omega)
    refine ⟨t, hch _ ?_, r1, r2, r3⟩
    rw [if_pos ⟨hp, hn⟩]
    exact hc
  · intro hp hn
    obtain ⟨s1, hrm, hhw1, hnh1, hinf, hnsz16⟩ := hc2 hp hn
    obtain ⟨t, hc, r1, r2, r3⟩ :=
      C6aux_case2 hhw hrm hhw1 hnh1 hnsz hinf hsz8 hsz16 hnsz16 hsm
    refine ⟨t, hch _ ?_, r1, r2, r3⟩
    have hn1 : ¬(GET_ALLOC pf ≠ 0 ∧ GET_ALLOC nh ≠ 0) := fun hcond => hcond.2 hn
    have hy : GET_ALLOC pf ≠ 0 ∧ GET_ALLOC nh = 0 := ⟨hp, hn⟩
    rw [GET_SIZE_PACK0 sz hsz8, if_neg hn1, if_pos hy]
    exact hc
  · intro hp hn
    obtain ⟨s1, hrm, hpf1, hph1, hhw1, hinf, hpsz16⟩ := hc3 hp hn
    obtain ⟨t, hc, r1, r2, r3⟩ :=
      C6aux_case3 hpf hpsz hrm hpf1 hph1 hphs hhw1 hinf hsz8 hsz16 hpsz16 hlo (by omega)
    refine ⟨t, hch _ ?_, r1, r2, r3⟩
    have hn1 : ¬(GET_ALLOC pf ≠ 0 ∧ GET_ALLOC nh ≠ 0) := fun hcond => hcond.1 hp
    have hn2 : ¬(GET_ALLOC pf ≠ 0 ∧ GET_ALLOC nh = 0) := fun hcond => hcond.1 hp
    have hy : GET_ALLOC pf = 0 ∧ GET_ALLOC nh ≠ 0 := ⟨hp, hn⟩
    rw [GET_SIZE_PACK0 sz hsz8, if_neg hn1, if_neg hn2, if_pos hy]
    exact hc
  · intro hp hn
    obtain ⟨s1, s2, nf, hrm1, hpf1, hrm2, hpf2, hph2, hhw2, hnh2, hnfr, hnfs, hpsz16, hnsz16⟩ :=
      hc4 hp hn
    obtain ⟨t, hc, r1, r2, r3⟩ :=
      C6aux_case4 hpsz hhw hrm1 hpf1 hrm2 hpf2 hph2 hphs hhw2 hnh2 hnsz hnfr hnfs
        hsz8 hsz16 hpsz16 hnsz16 hlo hsm
    refine ⟨t, hch _ ?_, r1, r2, r3⟩
    have hn1 : ¬(GET_ALLOC pf ≠ 0 ∧ GET_ALLOC nh ≠ 0) := fun hcond => hcond.1 hp
    have hn2 : ¬(GET_ALLOC pf ≠ 0 ∧ GET_ALLOC nh = 0) := fun hcond => hcond.1 hp
    have hn3 : ¬(GET_ALLOC pf = 0 ∧ GET_ALLOC nh ≠ 0) := fun hcond => hcond.2 hn
    rw [GET_SIZE_PACK0 sz hsz8, if_neg hn1, if_neg hn2, if_neg hn3]
    exact hc

/-- C6 witness: freeing the 24-byte block at 24 of `heapB` (mid-free
state `heapC4pre`), whose physical neighbours — prologue footer 9 at
16, next header 25 at 44 — are both allocated, coalescing inserts the
block as-is: it returns pointer 24, its tags still read `PACK 24 0`,
and 24 heads the bucket of size 24. -/
theorem C6_witness :
    GET_ALLOC 9 ≠ 0 ∧ GET_ALLOC 25 ≠ 0 ∧
    (∃ t, coalesce 100 heapC4pre 24 = .ok (24, t) ∧
      GETw t (24 - 4) = .ok (PACK 24 0) ∧
      GETw t (24 + 24 - 8) = .ok (PACK 24 0) ∧
      alook t.freelists (listIdx 24) = 24) :=
  ⟨by decide, by decide,
    (@C6_coalesce_cases 100 heapC4pre 24 9 9 24 25 8 24
      (by decide) (by decide) (by decide) (by decide) (by decide) (by decide)
      (by decide) (by decide) (by decide) (by decide) (by decide) (by decide)
      (fun _ hn => absurd hn (by decide))
      (fun hp => absurd hp (by decide))
      (fun hp => absurd hp (by decide))).1 (by decide) (by decide)⟩

/-- C5 witness: on `heapC4` with required size 16, the scanned chains
are bucket 5's 24-byte block at 24 followed by bucket 8's 208-byte
block at 72, and `find_fit` returns their first fit (the block at
24). -/
theorem C5_witness :
    chainsCat heapC4 100 (List.range' (listIdx 16) (NUMLIST - listIdx 16)) =
        .ok [(24, 24), (72, 208)] ∧
    find_fit heapC4 16 100 = .ok (firstFit 16 [(24, 24), (72, 208)]) :=
  ⟨by decide, (C5_find_fit_first_fit heapC4 16 100 [(24, 24), (72, 208)] (by decide)).2⟩

end MM
